import Mathlib

/-!
# Verification of the article-search core

A shallow embedding of the retrieval core of the article search service:
the query processor (`app/query_processor.py`), the retrieval strategy
builders, reciprocal rank fusion, and the search orchestrator
(`app/api.py`).  Strings are modelled as lists of characters, Python
floats as exact rationals, and Python dicts (which preserve insertion
order) as association lists.  The OpenSearch backend, the embedding
model and the spelling dictionary are external collaborators and appear
as function-valued parameters.  Telemetry (`log_search`) is external,
write-only and does not influence any response field we model.
-/

namespace InternalSearch

/- Batteries marks rational arithmetic `irreducible`, which blocks
`decide` on concrete fused scores; restore reducibility locally so the
worked examples evaluate. -/
attribute [local semireducible] Rat.mul Rat.inv Rat.add Rat.sub Rat.ofScientific

/-! ## Python-style string primitives (strings as `List Char`)

`is_py_space` recognises the ASCII whitespace characters matched by
Python's `str.strip`/`str.split` and by `\s` in the regexes of
`query_processor.py` (space, tab, newline, carriage return, vertical
tab, form feed).  `py_lower_char` is ASCII lower-casing as performed by
`str.lower` on the ASCII range.
-/

def space_char : Char := Char.ofNat 32

def is_py_space (c : Char) : Bool :=
  c.toNat = 32 || c.toNat = 9 || c.toNat = 10 || c.toNat = 13 || c.toNat = 11 || c.toNat = 12

def py_lower_char (c : Char) : Char :=
  if 65 ≤ c.toNat ∧ c.toNat ≤ 90 then Char.ofNat (c.toNat + 32) else c

/-- Python `str.strip()`: drop leading and trailing whitespace. -/
def py_strip (s : List Char) : List Char :=
  ((s.dropWhile is_py_space).reverse.dropWhile is_py_space).reverse

/-- `re.sub(r'\s+', ' ', s)`: the auxiliary flag records whether the
previous character was part of a whitespace run already replaced. -/
def collapse_ws_aux : Bool → List Char → List Char
  | _, [] => []
  | true, c :: rest =>
    if is_py_space c then collapse_ws_aux true rest
    else c :: collapse_ws_aux false rest
  | false, c :: rest =>
    if is_py_space c then space_char :: collapse_ws_aux true rest
    else c :: collapse_ws_aux false rest

def collapse_ws (s : List Char) : List Char := collapse_ws_aux false s

/-- Python `str.split()` (no separator): split on whitespace runs,
dropping empty tokens.  The accumulator holds the current token in
reverse. -/
def py_split_aux : List Char → List Char → List (List Char)
  | [], acc => if acc.isEmpty then [] else [acc.reverse]
  | c :: rest, acc =>
    if is_py_space c then
      if acc.isEmpty then py_split_aux rest []
      else acc.reverse :: py_split_aux rest []
    else py_split_aux rest (c :: acc)

def py_split (s : List Char) : List (List Char) := py_split_aux s []

/-- Python `' '.join(words)`. -/
def py_join_space : List (List Char) → List Char
  | [] => []
  | [w] => w
  | w :: w2 :: ws => w ++ space_char :: py_join_space (w2 :: ws)

/-! ## Query processor (`app/query_processor.py`)

The spelling dictionary (`self.spell.correction`) is an external
collaborator, passed as a function `correction`; Python's
`SpellChecker.correction` returns the best correction or `None`, and
the call site additionally tests the result for truthiness (so an empty
correction is treated like `None`).
-/

/-- `QueryProcessor.normalize`: strip, lowercase, collapse whitespace
runs to single spaces — in that order, as in the source. -/
def normalize (query : List Char) : List Char :=
  collapse_ws ((py_strip query).map py_lower_char)

/-- One iteration of the `spell_check` token loop: the accumulator
holds the corrected words so far and the OR-ed `was_corrected` flag.
Tokens of length ≤ 2 or containing a digit are passed through; a truthy
correction differing from the token is substituted and raises the flag. -/
def spell_step (correction : List Char → Option (List Char))
    (acc : List (List Char) × Bool) (word : List Char) : List (List Char) × Bool :=
  if word.length ≤ 2 ∨ word.any Char.isDigit then (acc.1 ++ [word], acc.2)
  else
    match correction word with
    | some corrected_word =>
      if corrected_word ≠ [] ∧ corrected_word ≠ word then (acc.1 ++ [corrected_word], true)
      else (acc.1 ++ [word], acc.2)
    | none => (acc.1 ++ [word], acc.2)

/-- `QueryProcessor.spell_check`, with the loop over tokens rendered as
a left fold of `spell_step`. -/
def spell_check (correction : List Char → Option (List Char)) (query : List Char) :
    List Char × Bool :=
  let words := py_split query
  let folded := words.foldl (spell_step correction) ([], false)
  (py_join_space folded.1, folded.2)

/-- Characters kept by `remove_special_chars` with the default
`keep_chars = "-'"`: alphanumerics, whitespace, hyphen (45) and
apostrophe (39). -/
def is_allowed_char (c : Char) : Bool :=
  (65 ≤ c.toNat && c.toNat ≤ 90) || (97 ≤ c.toNat && c.toNat ≤ 122) ||
    (48 ≤ c.toNat && c.toNat ≤ 57) || is_py_space c || c.toNat = 45 || c.toNat = 39

/-- `QueryProcessor.remove_special_chars` (default `keep_chars`):
delete disallowed characters, then collapse whitespace, then strip. -/
def remove_special_chars (query : List Char) : List Char :=
  py_strip (collapse_ws (query.filter is_allowed_char))

/-- `QueryProcessor.process`: blank input is returned unchanged with a
`false` flag; otherwise normalize, strip special characters, then
spell-check (when enabled). -/
def process (correction : List Char → Option (List Char)) (query : List Char)
    (apply_spell_check : Bool) : List Char × Bool :=
  if query = [] ∨ py_strip query = [] then (query, false)
  else
    let query1 := normalize query
    let query2 := remove_special_chars query1
    if apply_spell_check then spell_check correction query2 else (query2, false)

/-! ## Search data model (`app/api.py`) -/

/-- The `_source` of a backend hit.  Every indexed document carries an
`id` (the ingestion pipeline always writes one), so `id` is total. -/
structure Source where
  id : String
  title : Option String := none
  excerpt : Option String := none
  body_text : Option String := none
  tags : List String := []
  published_at : Option String := none
deriving DecidableEq, Inhabited

/-- A backend hit: `_source` plus `_score`. -/
structure Hit where
  source : Source
  score : ℚ := 0
deriving DecidableEq, Inhabited

/-- The `SearchResult` response model. -/
structure SearchResult where
  id : String
  title : Option String
  excerpt : Option String
  body_text : Option String
  tags : List String
  published_at : Option String
  score : ℚ
deriving DecidableEq, Inhabited

inductive SearchType
  | bm25
  | semantic
  | hybrid
  | rrf
deriving DecidableEq, Inhabited

inductive SortBy
  | relevance
  | date_desc
  | date_asc
  | title_az
deriving DecidableEq, Inhabited

/-- The `SearchRequest` request model.  Note: the pydantic model
declares no range constraints on `top_k` or the weights. -/
structure SearchRequest where
  query : List Char
  search_type : SearchType := .hybrid
  top_k : ℤ := 10
  bm25_weight : ℚ := 1/2
  vector_weight : ℚ := 1/2
  sort_by : SortBy := .relevance
deriving DecidableEq

/-! ## Retrieval strategy builders -/

structure MultiMatchClause where
  query : List Char
  fields : List String
  match_type : String
  tie_breaker : ℚ
  boost : Option ℚ
deriving DecidableEq

structure KnnClause where
  vector : List ℚ
  k : ℤ
  boost : Option ℚ
deriving DecidableEq

/-- The query part of an OpenSearch body: a bare `multi_match`, a bare
`knn`, or the hybrid `bool`/`should` union of exactly one of each. -/
inductive QueryClause
  | multi_match : MultiMatchClause → QueryClause
  | knn : KnnClause → QueryClause
  | bool_should : MultiMatchClause → KnnClause → QueryClause
deriving DecidableEq

/-- The sort clause injected by `apply_sort` (each value stands for the
two-element OpenSearch sort array with `_score` as tie-breaker). -/
inductive SortClause
  | published_at_desc
  | published_at_asc
  | title_keyword_asc
deriving DecidableEq

structure SearchBody where
  size : ℤ
  query : QueryClause
  sort : Option SortClause := none
deriving DecidableEq

def bm25_fields : List String := ["title^3", "excerpt^2", "body_text"]

/-- `build_bm25_query`. -/
def build_bm25_query (query : List Char) (top_k : ℤ) : SearchBody :=
  { size := top_k,
    query := .multi_match
      { query := query, fields := bm25_fields, match_type := "best_fields",
        tie_breaker := 3/10, boost := none },
    sort := none }

/-- `build_semantic_query`. -/
def build_semantic_query (query_embedding : List ℚ) (top_k : ℤ) : SearchBody :=
  { size := top_k,
    query := .knn { vector := query_embedding, k := top_k, boost := none },
    sort := none }

/-- `build_hybrid_query`: a `bool`/`should` union of the weighted
`multi_match` and `knn` clauses; the knn side over-fetches `top_k * 2`. -/
def build_hybrid_query (query : List Char) (query_embedding : List ℚ) (top_k : ℤ)
    (bm25_weight vector_weight : ℚ) : SearchBody :=
  { size := top_k,
    query := .bool_should
      { query := query, fields := bm25_fields, match_type := "best_fields",
        tie_breaker := 3/10, boost := some bm25_weight }
      { vector := query_embedding, k := top_k * 2, boost := some vector_weight },
    sort := none }

/-- `apply_sort`: mutate the body's `sort` clause according to the sort
option; `relevance` returns the body unchanged. -/
def apply_sort (search_body : SearchBody) (sort_by : SortBy) : SearchBody :=
  match sort_by with
  | .relevance => search_body
  | .date_desc => { search_body with sort := some .published_at_desc }
  | .date_asc => { search_body with sort := some .published_at_asc }
  | .title_az => { search_body with sort := some .title_keyword_asc }

/-! ## Reciprocal rank fusion (`reciprocal_rank_fusion`)

Python dicts preserve insertion order, and `sorted` is stable, so the
score accumulator is an insertion-ordered association list and the sort
a stable insertion sort (descending on score).
-/

def alist_lookup {α : Type} : List (String × α) → String → Option α
  | [], _ => none
  | (k, v) :: rest, key => if k = key then some v else alist_lookup rest key

/-- `rrf_scores[doc_id] = rrf_scores.get(doc_id, 0) + v`, preserving
insertion order (new keys go to the back). -/
def upd_score : List (String × ℚ) → String → ℚ → List (String × ℚ)
  | [], key, v => [(key, v)]
  | (k, s) :: rest, key, v =>
    if k = key then (k, s + v) :: rest else (k, s) :: upd_score rest key v

/-- `if doc_id not in doc_data: doc_data[doc_id] = hit['_source']`. -/
def upd_data (data : List (String × Source)) (key : String) (src : Source) :
    List (String × Source) :=
  if (alist_lookup data key).isSome then data else data ++ [(key, src)]

/-- One `for rank, hit in enumerate(results, start_rank)` loop of
`reciprocal_rank_fusion`, updating both accumulators. -/
def rrf_fold (k : ℚ) : List Hit → ℚ → List (String × ℚ) → List (String × Source) →
    List (String × ℚ) × List (String × Source)
  | [], _, scores, data => (scores, data)
  | hit :: rest, rank, scores, data =>
    rrf_fold k rest (rank + 1)
      (upd_score scores hit.source.id (1 / (k + rank)))
      (upd_data data hit.source.id hit.source)

/-- Both accumulation loops: BM25 hits first, then semantic hits, each
ranked from 1. -/
def rrf_acc (bm25_results semantic_results : List Hit) (k : ℚ) :
    List (String × ℚ) × List (String × Source) :=
  let after_bm25 := rrf_fold k bm25_results 1 [] []
  rrf_fold k semantic_results 1 after_bm25.1 after_bm25.2

/-- Stable insertion of one scored id into a score-descending list: an
element is placed before the first strictly-smaller score, after any
equal ones already present later in the original list. -/
def insert_desc (x : String × ℚ) : List (String × ℚ) → List (String × ℚ)
  | [] => [x]
  | y :: ys => if y.2 ≤ x.2 then x :: y :: ys else y :: insert_desc x ys

/-- `sorted(rrf_scores.items(), key=lambda x: x[1], reverse=True)`:
stable, descending on the score component. -/
def sort_by_score_desc : List (String × ℚ) → List (String × ℚ)
  | [] => []
  | x :: xs => insert_desc x (sort_by_score_desc xs)

/-- Python slice `l[:n]`, including the negative-index convention. -/
def py_take {α : Type} (n : ℤ) (l : List α) : List α :=
  if 0 ≤ n then l.take n.toNat else l.take ((l.length : ℤ) + n).toNat

/-- `reciprocal_rank_fusion`: accumulate `1/(k+rank)` per list, sort by
fused score descending, truncate to `top_k`, and emit results carrying
the first-seen payload and the fused score.  (`doc_data[doc_id]` cannot
miss in the source — every scored id was stored on first sight — so the
`default` branch of the lookup is unreachable.) -/
def reciprocal_rank_fusion (bm25_results semantic_results : List Hit)
    (k : ℚ) (top_k : ℤ) : List SearchResult :=
  let acc := rrf_acc bm25_results semantic_results k
  let sorted_docs := py_take top_k (sort_by_score_desc acc.1)
  sorted_docs.map fun p =>
    let source := (alist_lookup acc.2 p.1).getD default
    { id := source.id, title := source.title, excerpt := source.excerpt,
      body_text := source.body_text, tags := source.tags,
      published_at := source.published_at, score := p.2 }

/-! ## Search orchestrator (`search_articles`, `search_articles_get`) -/

structure BackendResponse where
  hits : List Hit
  total : ℤ
deriving DecidableEq, Inhabited

/-- External collaborators of the orchestrator: the OpenSearch client,
the embedding model, the spelling dictionary, and whether the target
index exists. -/
structure OrchestratorEnv where
  client : SearchBody → BackendResponse
  embed : List Char → List ℚ
  correction : List Char → Option (List Char)
  index_exists : Bool

inductive SearchError
  | index_not_found
  | invalid_parameter
deriving DecidableEq

structure SearchResponse where
  query : List Char
  processed_query : Option (List Char)
  total_results : ℤ
  results : List SearchResult
deriving DecidableEq

instance : DecidableEq (Except SearchError SearchResponse) := fun a b =>
  match a, b with
  | .ok x, .ok y =>
    if h : x = y then isTrue (by rw [h]) else isFalse (by simp [h])
  | .error x, .error y =>
    if h : x = y then isTrue (by rw [h]) else isFalse (by simp [h])
  | .ok _, .error _ => isFalse (by simp)
  | .error _, .ok _ => isFalse (by simp)

/-- The per-hit result formatting shared by the bm25, semantic and
hybrid branches of `search_articles`. -/
def format_hits (hits : List Hit) : List SearchResult :=
  hits.map fun hit =>
    { id := hit.source.id, title := hit.source.title, excerpt := hit.source.excerpt,
      body_text := hit.source.body_text, tags := hit.source.tags,
      published_at := hit.source.published_at, score := hit.score }

/-- The weight-normalization block of the hybrid branch
(`api.py` lines 586–592): a zero total falls back to `0.5/0.5` without
dividing; otherwise each weight is divided by the total. -/
def normalized_weights (bm25_weight vector_weight : ℚ) : ℚ × ℚ :=
  let total_weight := bm25_weight + vector_weight
  if total_weight = 0 then (1/2, 1/2)
  else (bm25_weight / total_weight, vector_weight / total_weight)

/-- Line 497: `search_query = processed_query if processed_query else
original_query` — the empty processed query falls back to the raw one. -/
def effective_query (correction : List Char → Option (List Char))
    (original_query : List Char) : List Char :=
  let processed_query := (process correction original_query true).1
  if processed_query ≠ [] then processed_query else original_query

/-- The POST `/search` handler `search_articles`.  The telemetry call
(`log_search`) is external and dropped; everything else follows the
four mode branches of the source. -/
def search_articles (env : OrchestratorEnv) (request : SearchRequest) :
    Except SearchError SearchResponse :=
  if env.index_exists = false then .error .index_not_found
  else
    let original_query := request.query
    let processed := process env.correction original_query true
    let processed_query := processed.1
    let was_corrected := processed.2
    let search_query := effective_query env.correction original_query
    let reported_query : Option (List Char) :=
      if was_corrected then some processed_query else none
    match request.search_type with
    | .bm25 =>
      let search_body := apply_sort (build_bm25_query search_query request.top_k) request.sort_by
      let response := env.client search_body
      .ok { query := original_query, processed_query := reported_query,
            total_results := response.total, results := format_hits response.hits }
    | .semantic =>
      let query_embedding := env.embed search_query
      let search_body :=
        apply_sort (build_semantic_query query_embedding request.top_k) request.sort_by
      let response := env.client search_body
      .ok { query := original_query, processed_query := reported_query,
            total_results := response.total, results := format_hits response.hits }
    | .hybrid =>
      let query_embedding := env.embed search_query
      let weights := normalized_weights request.bm25_weight request.vector_weight
      let search_body :=
        apply_sort
          (build_hybrid_query search_query query_embedding request.top_k weights.1 weights.2)
          request.sort_by
      let response := env.client search_body
      .ok { query := original_query, processed_query := reported_query,
            total_results := response.total, results := format_hits response.hits }
    | .rrf =>
      let query_embedding := env.embed search_query
      let bm25_body :=
        apply_sort (build_bm25_query search_query (request.top_k * 2)) request.sort_by
      let bm25_response := env.client bm25_body
      let semantic_body :=
        apply_sort (build_semantic_query query_embedding (request.top_k * 2)) request.sort_by
      let semantic_response := env.client semantic_body
      let results :=
        reciprocal_rank_fusion bm25_response.hits semantic_response.hits 60 request.top_k
      let total_results := max bm25_response.total semantic_response.total
      .ok { query := original_query, processed_query := reported_query,
            total_results := total_results, results := results }

/-- The GET `/search` handler: FastAPI validates the declared
`ge`/`le` bounds on `top_k` and both weights before the handler body
runs, then delegates to `search_articles` (the GET route takes no
`sort_by`, so the request uses the model default `relevance`). -/
def search_articles_get (env : OrchestratorEnv) (q : List Char) (search_type : SearchType)
    (top_k : ℤ) (bm25_weight vector_weight : ℚ) : Except SearchError SearchResponse :=
  if 1 ≤ top_k ∧ top_k ≤ 100 ∧ 0 ≤ bm25_weight ∧ bm25_weight ≤ 1 ∧
      0 ≤ vector_weight ∧ vector_weight ≤ 1 then
    search_articles env
      { query := q, search_type := search_type, top_k := top_k,
        bm25_weight := bm25_weight, vector_weight := vector_weight, sort_by := .relevance }
  else .error .invalid_parameter

/-! ## Observables used to state the claims -/

/-- 1-based rank of the first hit with a given id, in backend order. -/
def rank_of : List Hit → String → Option ℕ
  | [], _ => none
  | hit :: rest, doc_id =>
    if hit.source.id = doc_id then some 1 else (rank_of rest doc_id).map (· + 1)

/-- The RRF contribution `1/(k + rank)` of one candidate list to one
document, zero when the document is absent. -/
def rrf_contrib (k : ℚ) (hits : List Hit) (doc_id : String) : ℚ :=
  match rank_of hits doc_id with
  | some r => 1 / (k + (r : ℚ))
  | none => 0

/-- Sum of the per-occurrence contributions of a list processed from a
given starting rank (coincides with `rrf_contrib` on duplicate-free
lists). -/
def list_contrib (k : ℚ) : List Hit → ℚ → String → ℚ
  | [], _, _ => 0
  | hit :: rest, rank, doc_id =>
    (if hit.source.id = doc_id then 1 / (k + rank) else 0)
      + list_contrib k rest (rank + 1) doc_id

/-- The fused score a document ends up with in the RRF accumulator. -/
def fused_score (bm25_results semantic_results : List Hit) (k : ℚ) (doc_id : String) : ℚ :=
  (alist_lookup (rrf_acc bm25_results semantic_results k).1 doc_id).getD 0

/-- The `_source` of the first hit carrying a given id. -/
def first_source : List Hit → String → Option Source
  | [], _ => none
  | hit :: rest, doc_id =>
    if hit.source.id = doc_id then some hit.source else first_source rest doc_id

def hit_ids (hits : List Hit) : List String := hits.map fun h => h.source.id

def alist_keys {α : Type} (l : List (String × α)) : List String := l.map fun p => p.1

/-- The ids of a search outcome (empty for errors); used to compare
result-set membership across sort overrides. -/
def result_ids : Except SearchError SearchResponse → List String
  | .ok r => r.results.map fun res => res.id
  | .error _ => []

/-- `True` when no two adjacent characters are both whitespace. -/
def no_ws_run : List Char → Bool
  | [] => true
  | [_] => true
  | a :: b :: rest => (!(is_py_space a && is_py_space b)) && no_ws_run (b :: rest)

/-- The per-token behaviour of `spell_check`: short or digit-bearing
tokens pass through; otherwise a truthy dictionary correction that
differs from the token replaces it. -/
def correct_token (correction : List Char → Option (List Char)) (word : List Char) :
    List Char :=
  if word.length ≤ 2 ∨ word.any Char.isDigit then word
  else
    match correction word with
    | some corrected_word =>
      if corrected_word ≠ [] ∧ corrected_word ≠ word then corrected_word else word
    | none => word

/-- Whether `spell_check` changes a given token. -/
def token_changed (correction : List Char → Option (List Char)) (word : List Char) : Bool :=
  decide (correct_token correction word ≠ word)

/-- `rrf_scores.get(doc_id, 0)`: accumulated score with default 0. -/
def score_of (m : List (String × ℚ)) (doc_id : String) : ℚ :=
  (alist_lookup m doc_id).getD 0

/-! Concrete fixtures for counterexamples, worked examples and
witnesses. -/

def hitA : Hit := { source := { id := "A" } }

def hitB : Hit := { source := { id := "B" } }

def hitC : Hit := { source := { id := "C" } }

def hitD : Hit := { source := { id := "D" } }

/-- A backend whose candidate set depends on the body's sort clause —
as OpenSearch's does, since the sort clause decides which `size`
candidates are returned. -/
def sort_cex_env : OrchestratorEnv :=
  { client := fun b =>
      match b.sort with
      | none => { hits := [hitA], total := 1 }
      | some _ => { hits := [hitB], total := 1 },
    embed := fun _ => [],
    correction := fun _ => none,
    index_exists := true }

/-- A plain backend that always answers with one fixed hit. -/
def const_hit_env : OrchestratorEnv :=
  { client := fun _ => { hits := [hitA], total := 1 },
    embed := fun _ => [],
    correction := fun _ => none,
    index_exists := true }

/-- A concrete well-formed RRF request used by witnesses. -/
def reqQ : SearchRequest :=
  { query := ("q").data, search_type := .rrf, top_k := 1,
    bm25_weight := 1/2, vector_weight := 1/2, sort_by := .relevance }

/-! ## Character-level lemmas -/

theorem char_toNat_ofNat {n : ℕ} (h : n < 55296) : (Char.ofNat n).toNat = n := by
  unfold Char.ofNat
  rw [dif_pos (Or.inl h)]
  rfl

theorem py_lower_char_toNat_of_upper {c : Char} (h : 65 ≤ c.toNat ∧ c.toNat ≤ 90) :
    (py_lower_char c).toNat = c.toNat + 32 := by
  unfold py_lower_char
  rw [if_pos h]
  exact char_toNat_ofNat (by omega)

theorem py_lower_char_of_not_upper {c : Char} (h : ¬(65 ≤ c.toNat ∧ c.toNat ≤ 90)) :
    py_lower_char c = c := by
  unfold py_lower_char
  exact if_neg h

theorem is_py_space_false_iff {c : Char} :
    is_py_space c = false ↔
      c.toNat ≠ 32 ∧ c.toNat ≠ 9 ∧ c.toNat ≠ 10 ∧ c.toNat ≠ 13 ∧ c.toNat ≠ 11 ∧ c.toNat ≠ 12 := by
  simp [is_py_space]
  tauto

theorem is_py_space_py_lower (c : Char) : is_py_space (py_lower_char c) = is_py_space c := by
  by_cases h : 65 ≤ c.toNat ∧ c.toNat ≤ 90
  · have h2 := py_lower_char_toNat_of_upper h
    have hl : is_py_space (py_lower_char c) = false := by
      rw [is_py_space_false_iff, h2]
      omega
    have hr : is_py_space c = false := by
      rw [is_py_space_false_iff]
      omega
    rw [hl, hr]
  · rw [py_lower_char_of_not_upper h]

theorem py_lower_char_idem (c : Char) :
    py_lower_char (py_lower_char c) = py_lower_char c := by
  by_cases h : 65 ≤ c.toNat ∧ c.toNat ≤ 90
  · have h2 := py_lower_char_toNat_of_upper h
    apply py_lower_char_of_not_upper
    rw [h2]
    omega
  · rw [py_lower_char_of_not_upper h, py_lower_char_of_not_upper h]

theorem is_py_space_space_char : is_py_space space_char = true := by decide

theorem py_lower_space_char : py_lower_char space_char = space_char := by decide

/-! ## Whitespace-collapsing lemmas -/

theorem collapse_ws_aux_cons_true (x : Char) (rest : List Char) :
    collapse_ws_aux true (x :: rest) =
      if is_py_space x then collapse_ws_aux true rest
      else x :: collapse_ws_aux false rest := rfl

theorem collapse_ws_aux_cons_false (x : Char) (rest : List Char) :
    collapse_ws_aux false (x :: rest) =
      if is_py_space x then space_char :: collapse_ws_aux true rest
      else x :: collapse_ws_aux false rest := rfl

theorem mem_collapse_ws_aux {c : Char} :
    ∀ (l : List Char) (b : Bool), c ∈ collapse_ws_aux b l →
      c = space_char ∨ (c ∈ l ∧ is_py_space c = false)
  | [], b, h => by cases b <;> simp [collapse_ws_aux] at h
  | x :: rest, b, h => by
    have step_true : c ∈ collapse_ws_aux true rest →
        c = space_char ∨ (c ∈ x :: rest ∧ is_py_space c = false) := fun hm =>
      (mem_collapse_ws_aux rest true hm).imp id fun p => ⟨List.mem_cons_of_mem x p.1, p.2⟩
    have step_false : c ∈ collapse_ws_aux false rest →
        c = space_char ∨ (c ∈ x :: rest ∧ is_py_space c = false) := fun hm =>
      (mem_collapse_ws_aux rest false hm).imp id fun p => ⟨List.mem_cons_of_mem x p.1, p.2⟩
    by_cases hx : is_py_space x = true
    · cases b with
      | true =>
        rw [collapse_ws_aux_cons_true, if_pos hx] at h
        exact step_true h
      | false =>
        rw [collapse_ws_aux_cons_false, if_pos hx] at h
        rcases List.mem_cons.mp h with h | h
        · exact Or.inl h
        · exact step_true h
    · cases b with
      | true =>
        rw [collapse_ws_aux_cons_true, if_neg hx] at h
        rcases List.mem_cons.mp h with h | h
        · subst h
          exact Or.inr ⟨List.mem_cons_self c rest, by simpa using hx⟩
        · exact step_false h
      | false =>
        rw [collapse_ws_aux_cons_false, if_neg hx] at h
        rcases List.mem_cons.mp h with h | h
        · subst h
          exact Or.inr ⟨List.mem_cons_self c rest, by simpa using hx⟩
        · exact step_false h

theorem head?_collapse_ws_aux_true {c : Char} :
    ∀ l : List Char, (collapse_ws_aux true l).head? = some c → is_py_space c = false
  | [], h => by simp [collapse_ws_aux] at h
  | x :: rest, h => by
    by_cases hx : is_py_space x = true
    · rw [collapse_ws_aux_cons_true, if_pos hx] at h
      exact head?_collapse_ws_aux_true rest h
    · rw [collapse_ws_aux_cons_true, if_neg hx] at h
      simp only [List.head?_cons, Option.some_inj] at h
      subst h
      simpa using hx

theorem head?_collapse_ws_aux_false {x : Char} {u : List Char}
    (hu : u.head? = some x) (hx : is_py_space x = false) :
    (collapse_ws_aux false u).head? = some x := by
  cases u with
  | nil => simp at hu
  | cons y rest =>
    simp only [List.head?_cons, Option.some_inj] at hu
    subst hu
    rw [collapse_ws_aux_cons_false, if_neg (by simp [hx])]
    rfl

theorem no_ws_run_tail {a : Char} {l : List Char} (h : no_ws_run (a :: l) = true) :
    no_ws_run l = true := by
  cases l with
  | nil => rfl
  | cons b t =>
    simp only [no_ws_run, Bool.and_eq_true] at h
    exact h.2

theorem no_ws_run_collapse_ws_aux : ∀ (l : List Char) (b : Bool),
    no_ws_run (collapse_ws_aux b l) = true
  | [], b => by cases b <;> rfl
  | x :: rest, b => by
    by_cases hx : is_py_space x = true
    · cases b with
      | true =>
        rw [collapse_ws_aux_cons_true, if_pos hx]
        exact no_ws_run_collapse_ws_aux rest true
      | false =>
        rw [collapse_ws_aux_cons_false, if_pos hx]
        cases hrest : collapse_ws_aux true rest with
        | nil => rfl
        | cons c t =>
          have hc : is_py_space c = false :=
            head?_collapse_ws_aux_true rest (by rw [hrest]; rfl)
          have hrun : no_ws_run (c :: t) = true := by
            rw [← hrest]
            exact no_ws_run_collapse_ws_aux rest true
          simp [no_ws_run, hc, hrun]
    · have hxf : is_py_space x = false := by simpa using hx
      have hcons : no_ws_run (x :: collapse_ws_aux false rest) = true := by
        cases hrest : collapse_ws_aux false rest with
        | nil => rfl
        | cons c t =>
          have hrun : no_ws_run (c :: t) = true := by
            rw [← hrest]
            exact no_ws_run_collapse_ws_aux rest false
          simp [no_ws_run, hxf, hrun]
      cases b with
      | true =>
        rw [collapse_ws_aux_cons_true, if_neg hx]
        exact hcons
      | false =>
        rw [collapse_ws_aux_cons_false, if_neg hx]
        exact hcons

theorem getLast?_collapse_ws_aux {c : Char} :
    ∀ (l : List Char) (b : Bool), l.getLast? = some c → is_py_space c = false →
      (collapse_ws_aux b l).getLast? = some c
  | [], b, h, _ => by simp at h
  | [x], b, h, hc => by
    have hxc : x = c := by simpa using h
    subst hxc
    have hx : is_py_space x = false := hc
    cases b with
    | true => rw [collapse_ws_aux_cons_true, if_neg (by simp [hx])]; rfl
    | false => rw [collapse_ws_aux_cons_false, if_neg (by simp [hx])]; rfl
  | x :: r :: rest, b, h, hc => by
    rw [List.getLast?_cons_cons] at h
    have ih : ∀ b', (collapse_ws_aux b' (r :: rest)).getLast? = some c :=
      fun b' => getLast?_collapse_ws_aux (r :: rest) b' h hc
    have step : ∀ (y : Char) (b' : Bool),
        (y :: collapse_ws_aux b' (r :: rest)).getLast? = some c := by
      intro y b'
      cases haux : collapse_ws_aux b' (r :: rest) with
      | nil =>
        have hcontra := ih b'
        rw [haux] at hcontra
        simp at hcontra
      | cons z t =>
        rw [List.getLast?_cons_cons, ← haux]
        exact ih b'
    by_cases hx : is_py_space x = true
    · cases b with
      | true =>
        rw [collapse_ws_aux_cons_true, if_pos hx]
        exact ih true
      | false =>
        rw [collapse_ws_aux_cons_false, if_pos hx]
        exact step space_char true
    · cases b with
      | true =>
        rw [collapse_ws_aux_cons_true, if_neg hx]
        exact step x false
      | false =>
        rw [collapse_ws_aux_cons_false, if_neg hx]
        exact step x false

theorem collapse_ws_aux_true_eq_false {l : List Char}
    (h : ∀ c, l.head? = some c → is_py_space c = false) :
    collapse_ws_aux true l = collapse_ws_aux false l := by
  cases l with
  | nil => rfl
  | cons x rest =>
    have hx : is_py_space x = false := h x rfl
    rw [collapse_ws_aux_cons_true, collapse_ws_aux_cons_false,
      if_neg (by simp [hx]), if_neg (by simp [hx])]

theorem collapse_ws_aux_id : ∀ t : List Char,
    (∀ c ∈ t, is_py_space c = true → c = space_char) → no_ws_run t = true →
      collapse_ws_aux false t = t
  | [], _, _ => rfl
  | x :: rest, hmem, hrun => by
    have ihrest : collapse_ws_aux false rest = rest :=
      collapse_ws_aux_id rest (fun c hc => hmem c (List.mem_cons_of_mem x hc))
        (no_ws_run_tail hrun)
    by_cases hx : is_py_space x = true
    · have hxs : x = space_char := hmem x (List.mem_cons_self x rest) hx
      rw [collapse_ws_aux_cons_false, if_pos hx]
      have hhead : ∀ c, rest.head? = some c → is_py_space c = false := by
        intro c hc
        cases rest with
        | nil => simp at hc
        | cons r t =>
          simp only [List.head?_cons, Option.some_inj] at hc
          have hand : (is_py_space x && is_py_space r) = false := by
            have h2 := hrun
            simp only [no_ws_run, Bool.and_eq_true, Bool.not_eq_true'] at h2
            exact h2.1
          rcases Bool.and_eq_false_iff.mp hand with h1 | h1
          · rw [hx] at h1
            exact absurd h1 (by simp)
          · rw [← hc]
            exact h1
      rw [collapse_ws_aux_true_eq_false hhead, ihrest, hxs]
    · rw [collapse_ws_aux_cons_false, if_neg hx, ihrest]

/-! ## Strip lemmas -/

theorem dropWhile_head?_not {p : Char → Bool} {c : Char} :
    ∀ l : List Char, (l.dropWhile p).head? = some c → p c = false
  | [], h => by simp at h
  | x :: rest, h => by
    by_cases hx : p x = true
    · rw [List.dropWhile_cons, if_pos hx] at h
      exact dropWhile_head?_not rest h
    · rw [List.dropWhile_cons, if_neg hx] at h
      simp only [List.head?_cons, Option.some_inj] at h
      subst h
      simpa using hx

theorem py_strip_getLast? {s : List Char} {c : Char}
    (h : (py_strip s).getLast? = some c) : is_py_space c = false := by
  unfold py_strip at h
  rw [List.getLast?_reverse] at h
  exact dropWhile_head?_not _ h

theorem py_strip_head? {s : List Char} {c : Char}
    (h : (py_strip s).head? = some c) : is_py_space c = false := by
  apply dropWhile_head?_not (p := is_py_space) s
  obtain ⟨t, ht⟩ := (s.dropWhile is_py_space).reverse.dropWhile_suffix is_py_space
  cases hd : py_strip s with
  | nil =>
    rw [hd] at h
    simp at h
  | cons c0 rest =>
    rw [hd] at h
    simp only [List.head?_cons] at h
    have hw : s.dropWhile is_py_space = c0 :: (rest ++ t.reverse) := by
      have h3 : (s.dropWhile is_py_space).reverse.reverse =
          (t ++ ((s.dropWhile is_py_space).reverse.dropWhile is_py_space)).reverse := by
        rw [ht]
      rw [List.reverse_reverse, List.reverse_append] at h3
      have hd' : ((s.dropWhile is_py_space).reverse.dropWhile is_py_space).reverse
          = c0 :: rest := hd
      rw [hd'] at h3
      simpa using h3
    rw [hw, List.head?_cons]
    exact h

theorem dropWhile_eq_self_of_head {p : Char → Bool} {l : List Char}
    (h : ∀ c, l.head? = some c → p c = false) : l.dropWhile p = l := by
  cases l with
  | nil => rfl
  | cons x rest =>
    have hx : p x = false := h x rfl
    rw [List.dropWhile_cons, if_neg (by simp [hx])]

theorem py_strip_id {t : List Char}
    (hhead : ∀ c, t.head? = some c → is_py_space c = false)
    (hlast : ∀ c, t.getLast? = some c → is_py_space c = false) :
    py_strip t = t := by
  unfold py_strip
  rw [dropWhile_eq_self_of_head hhead]
  rw [dropWhile_eq_self_of_head (by
    intro c hc
    rw [List.head?_reverse] at hc
    exact hlast c hc)]
  exact t.reverse_reverse

/-! ## Invariants of `normalize` and its idempotence -/

theorem normalize_mem_lower {s : List Char} {c : Char} (h : c ∈ normalize s) :
    py_lower_char c = c := by
  rcases mem_collapse_ws_aux _ false h with h1 | ⟨h1, _⟩
  · rw [h1]
    exact py_lower_space_char
  · rcases List.mem_map.mp h1 with ⟨d, _, hd⟩
    rw [← hd]
    exact py_lower_char_idem d

theorem normalize_mem_space {s : List Char} {c : Char} (h : c ∈ normalize s)
    (hc : is_py_space c = true) : c = space_char := by
  rcases mem_collapse_ws_aux _ false h with h1 | ⟨_, h2⟩
  · exact h1
  · rw [hc] at h2
    exact absurd h2 (by simp)

theorem normalize_no_ws_run (s : List Char) : no_ws_run (normalize s) = true :=
  no_ws_run_collapse_ws_aux _ false

theorem normalize_head? {s : List Char} {c : Char}
    (h : (normalize s).head? = some c) : is_py_space c = false := by
  set u := (py_strip s).map py_lower_char with hu
  cases hcase : u with
  | nil =>
    have : normalize s = [] := by
      unfold normalize collapse_ws
      rw [← hu, hcase]
      rfl
    rw [this] at h
    simp at h
  | cons y rest =>
    have hhy : u.head? = some y := by rw [hcase]; rfl
    have hmap : u.head? = (py_strip s).head?.map py_lower_char := List.head?_map _ _
    rw [hhy] at hmap
    cases hps : (py_strip s).head? with
    | none => rw [hps] at hmap; simp at hmap
    | some d =>
      rw [hps] at hmap
      simp only [Option.map_some', Option.some_inj] at hmap
      have hd : is_py_space d = false := py_strip_head? hps
      have hy : is_py_space y = false := by
        rw [hmap, is_py_space_py_lower]
        exact hd
      have hhead : (normalize s).head? = some y := by
        unfold normalize collapse_ws
        rw [← hu]
        exact head?_collapse_ws_aux_false hhy hy
      rw [hhead] at h
      simp only [Option.some_inj] at h
      rw [← h]
      exact hy

theorem normalize_getLast? {s : List Char} {c : Char}
    (h : (normalize s).getLast? = some c) : is_py_space c = false := by
  set u := (py_strip s).map py_lower_char with hu
  cases hul : u.getLast? with
  | none =>
    rw [List.getLast?_eq_none_iff] at hul
    have : normalize s = [] := by
      unfold normalize collapse_ws
      rw [← hu, hul]
      rfl
    rw [this] at h
    simp at h
  | some y =>
    have hmap : u.getLast? = (py_strip s).getLast?.map py_lower_char := List.getLast?_map _ _
    rw [hul] at hmap
    cases hps : (py_strip s).getLast? with
    | none => rw [hps] at hmap; simp at hmap
    | some d =>
      rw [hps] at hmap
      simp only [Option.map_some', Option.some_inj] at hmap
      have hd : is_py_space d = false := py_strip_getLast? hps
      have hy : is_py_space y = false := by
        rw [hmap, is_py_space_py_lower]
        exact hd
      have hlast : (normalize s).getLast? = some y := by
        unfold normalize collapse_ws
        rw [← hu]
        exact getLast?_collapse_ws_aux u false hul hy
      rw [hlast] at h
      simp only [Option.some_inj] at h
      rw [← h]
      exact hy

theorem normalize_idem (s : List Char) : normalize (normalize s) = normalize s := by
  set t := normalize s with ht
  have hstrip : py_strip t = t :=
    py_strip_id (fun c hc => normalize_head? (ht ▸ hc))
      (fun c hc => normalize_getLast? (ht ▸ hc))
  have hmap : t.map py_lower_char = t := by
    rw [List.map_congr_left (fun c hc => normalize_mem_lower (ht ▸ hc))]
    exact t.map_id'
  have hcollapse : collapse_ws_aux false t = t :=
    collapse_ws_aux_id t
      (fun c hc hsp => normalize_mem_space (ht ▸ hc) hsp)
      (ht ▸ normalize_no_ws_run s)
  show collapse_ws ((py_strip t).map py_lower_char) = t
  rw [hstrip, hmap]
  exact hcollapse

/-- C6: `normalize` trims surrounding whitespace, lowercases, and
collapses whitespace runs to single spaces, so
`normalize("  Climate   CHANGE ") = "climate change"`, and `normalize`
is idempotent on every input string. -/
theorem C6_normalize_example_and_idempotent :
    normalize (("  Climate   CHANGE ").data) = ("climate change").data ∧
      ∀ x : List Char, normalize (normalize x) = normalize x :=
  ⟨by decide, normalize_idem⟩

/-! ## Spell-check characterization -/

theorem correct_token_of_skip (correction : List Char → Option (List Char))
    {word : List Char} (hskip : word.length ≤ 2 ∨ word.any Char.isDigit = true) :
    correct_token correction word = word := by
  unfold correct_token
  rw [if_pos hskip]

theorem correct_token_none (correction : List Char → Option (List Char))
    {word : List Char} (hskip : ¬(word.length ≤ 2 ∨ word.any Char.isDigit = true))
    (hc : correction word = none) : correct_token correction word = word := by
  unfold correct_token
  rw [if_neg hskip, hc]

theorem correct_token_some_pos (correction : List Char → Option (List Char))
    {word cw : List Char} (hskip : ¬(word.length ≤ 2 ∨ word.any Char.isDigit = true))
    (hc : correction word = some cw) (hsub : cw ≠ [] ∧ cw ≠ word) :
    correct_token correction word = cw := by
  unfold correct_token
  rw [if_neg hskip, hc]
  exact if_pos hsub

theorem correct_token_some_neg (correction : List Char → Option (List Char))
    {word cw : List Char} (hskip : ¬(word.length ≤ 2 ∨ word.any Char.isDigit = true))
    (hc : correction word = some cw) (hsub : ¬(cw ≠ [] ∧ cw ≠ word)) :
    correct_token correction word = word := by
  unfold correct_token
  rw [if_neg hskip, hc]
  exact if_neg hsub

theorem spell_step_eq (correction : List Char → Option (List Char))
    (acc : List (List Char) × Bool) (word : List Char) :
    spell_step correction acc word =
      (acc.1 ++ [correct_token correction word], acc.2 || token_changed correction word) := by
  unfold spell_step
  by_cases hskip : word.length ≤ 2 ∨ word.any Char.isDigit
  · have hctw := correct_token_of_skip correction hskip
    rw [if_pos hskip, hctw]
    simp [token_changed, hctw]
  · rw [if_neg hskip]
    cases hc : correction word with
    | none =>
      have hctw := correct_token_none correction hskip hc
      dsimp only
      rw [hctw]
      simp [token_changed, hctw]
    | some cw =>
      dsimp only
      by_cases hsub : cw ≠ [] ∧ cw ≠ word
      · have hctw := correct_token_some_pos correction hskip hc hsub
        rw [if_pos hsub, hctw]
        simp [token_changed, hctw, hsub.2]
      · have hctw := correct_token_some_neg correction hskip hc hsub
        rw [if_neg hsub, hctw]
        simp [token_changed, hctw]

theorem spell_fold (correction : List Char → Option (List Char)) :
    ∀ (words : List (List Char)) (acc : List (List Char)) (flag : Bool),
      words.foldl (spell_step correction) (acc, flag) =
        (acc ++ words.map (correct_token correction),
         flag || words.any (token_changed correction))
  | [], acc, flag => by simp
  | w :: ws, acc, flag => by
    rw [List.foldl_cons, spell_step_eq]
    rw [spell_fold correction ws (acc ++ [correct_token correction w])
      (flag || token_changed correction w)]
    simp [Bool.or_assoc]

theorem spell_check_eq (correction : List Char → Option (List Char)) (query : List Char) :
    spell_check correction query =
      (py_join_space ((py_split query).map (correct_token correction)),
       (py_split query).any (token_changed correction)) := by
  unfold spell_check
  dsimp only
  rw [spell_fold correction (py_split query) [] false]
  simp

/-- C7: `spell_check` passes tokens of length ≤ 2 or containing a digit
through unchanged, substitutes a dictionary correction only when one
exists and differs from the token, ORs the corrected flag across all
tokens, preserves token order rejoined with single spaces, and in
particular returns `("ai 5g", false)` on `"ai 5g"` for every
dictionary. -/
theorem C7_spell_check_spec (correction : List Char → Option (List Char)) :
    (∀ q : List Char, spell_check correction q =
        (py_join_space ((py_split q).map (correct_token correction)),
         (py_split q).any (token_changed correction))) ∧
    (∀ w : List Char, (w.length ≤ 2 ∨ w.any Char.isDigit = true) →
        correct_token correction w = w) ∧
    (∀ w : List Char, correct_token correction w ≠ w →
        correction w = some (correct_token correction w)) ∧
    spell_check correction (("ai 5g").data) = (("ai 5g").data, false) := by
  refine ⟨spell_check_eq correction, fun w hw => correct_token_of_skip correction hw, ?_, ?_⟩
  · intro w hne
    by_cases hs : w.length ≤ 2 ∨ w.any Char.isDigit
    · exact absurd (correct_token_of_skip correction hs) hne
    · cases hc : correction w with
      | none => exact absurd (correct_token_none correction hs hc) hne
      | some cw =>
        by_cases hsub : cw ≠ [] ∧ cw ≠ w
        · rw [correct_token_some_pos correction hs hc hsub]
        · exact absurd (correct_token_some_neg correction hs hc hsub) hne
  · rw [spell_check_eq correction]
    have hsplit : py_split (("ai 5g").data) = [("ai").data, ("5g").data] := by decide
    rw [hsplit]
    have h1 : correct_token correction (("ai").data) = ("ai").data :=
      correct_token_of_skip correction (Or.inl (by decide))
    have h2 : correct_token correction (("5g").data) = ("5g").data :=
      correct_token_of_skip correction (Or.inr (by decide))
    have hm : ([("ai").data, ("5g").data]).map (correct_token correction) =
        [("ai").data, ("5g").data] := by
      rw [List.map_cons, List.map_cons, List.map_nil, h1, h2]
    have ha : ([("ai").data, ("5g").data]).any (token_changed correction) = false := by
      rw [List.any_cons, List.any_cons, List.any_nil]
      simp [token_changed, h1, h2]
    rw [hm, ha]
    decide

/-- Witness for C7 at a concrete dictionary and input. -/
theorem C7_witness :
    correct_token (fun _ => none) (("ai").data) = ("ai").data ∧
      spell_check (fun _ => none) (("ai 5g").data) = (("ai 5g").data, false) :=
  ⟨(C7_spell_check_spec (fun _ => none)).2.1 (("ai").data) (Or.inl (by decide)),
   (C7_spell_check_spec (fun _ => none)).2.2.2⟩

/-! ## Association-list lemmas -/

theorem alist_lookup_append {α : Type} (m1 m2 : List (String × α)) (key : String) :
    alist_lookup (m1 ++ m2) key =
      match alist_lookup m1 key with
      | some v => some v
      | none => alist_lookup m2 key := by
  induction m1 with
  | nil => rfl
  | cons p rest ih =>
    obtain ⟨k, v⟩ := p
    by_cases hk : k = key
    · simp only [List.cons_append, alist_lookup, if_pos hk]
    · simp only [List.cons_append, alist_lookup, if_neg hk]
      exact ih

theorem mem_keys_iff_lookup_isSome {α : Type} (m : List (String × α)) (key : String) :
    key ∈ alist_keys m ↔ (alist_lookup m key).isSome = true := by
  induction m with
  | nil => simp [alist_keys, alist_lookup]
  | cons p rest ih =>
    obtain ⟨k, v⟩ := p
    by_cases hk : k = key
    · simp [alist_keys, alist_lookup, if_pos hk, hk]
    · simp only [alist_keys, List.map_cons, List.mem_cons, alist_lookup, if_neg hk]
      constructor
      · intro h
        rcases h with h | h
        · exact absurd h.symm hk
        · exact (ih.mp h)
      · intro h
        exact Or.inr (ih.mpr h)

theorem alist_lookup_mem {α : Type} :
    ∀ (m : List (String × α)) (key : String) (v : α),
      alist_lookup m key = some v → (key, v) ∈ m
  | [], key, v, h => by simp [alist_lookup] at h
  | (k, w) :: rest, key, v, h => by
    by_cases hk : k = key
    · rw [alist_lookup, if_pos hk] at h
      simp only [Option.some_inj] at h
      subst hk
      subst h
      exact List.mem_cons_self _ _
    · rw [alist_lookup, if_neg hk] at h
      exact List.mem_cons_of_mem _ (alist_lookup_mem rest key v h)

theorem alist_lookup_of_mem_nodup {α : Type} :
    ∀ {m : List (String × α)}, (alist_keys m).Nodup →
      ∀ {key : String} {v : α}, (key, v) ∈ m → alist_lookup m key = some v := by
  intro m
  induction m with
  | nil => intro _ key v h; simp at h
  | cons p rest ih =>
    obtain ⟨k, w⟩ := p
    intro hnd key v hm
    have hnd' : (alist_keys rest).Nodup := by
      simpa [alist_keys] using hnd.of_cons
    rcases List.mem_cons.mp hm with h | h
    · have h1 : k = key := (congrArg Prod.fst h).symm
      have h2 : w = v := (congrArg Prod.snd h).symm
      rw [alist_lookup, if_pos h1, h2]
    · have hk : k ≠ key := by
        intro hkk
        subst hkk
        have : k ∈ alist_keys rest :=
          List.mem_map_of_mem (fun p => p.1) h
        simp only [alist_keys, List.map_cons, List.nodup_cons] at hnd
        exact hnd.1 this
      rw [alist_lookup, if_neg hk]
      exact ih hnd' h

theorem score_of_upd_score :
    ∀ (m : List (String × ℚ)) (key doc_id : String) (v : ℚ),
      score_of (upd_score m key v) doc_id =
        score_of m doc_id + if key = doc_id then v else 0
  | [], key, doc_id, v => by
    by_cases h : key = doc_id
    · simp [upd_score, score_of, alist_lookup, if_pos h, h]
    · simp [upd_score, score_of, alist_lookup, if_neg h, h]
  | (k, s) :: rest, key, doc_id, v => by
    by_cases hk : k = key
    · rw [upd_score, if_pos hk]
      by_cases hd : k = doc_id
      · have hkd : key = doc_id := hk ▸ hd
        simp [score_of, alist_lookup, if_pos hd, hkd]
      · have hkd : ¬(key = doc_id) := by rw [← hk]; exact hd
        simp [score_of, alist_lookup, if_neg hd, hkd]
    · rw [upd_score, if_neg hk]
      by_cases hd : k = doc_id
      · have hkd : ¬(key = doc_id) := by
          intro h
          exact hk (hd ▸ h ▸ rfl)
        simp [score_of, alist_lookup, if_pos hd, hkd]
      · simp only [score_of, alist_lookup, if_neg hd]
        exact score_of_upd_score rest key doc_id v

theorem alist_keys_upd_score :
    ∀ (m : List (String × ℚ)) (key : String) (v : ℚ),
      alist_keys (upd_score m key v) =
        if key ∈ alist_keys m then alist_keys m else alist_keys m ++ [key]
  | [], key, v => by simp [upd_score, alist_keys]
  | (k, s) :: rest, key, v => by
    by_cases hk : k = key
    · rw [upd_score, if_pos hk]
      have : key ∈ alist_keys ((k, s) :: rest) := by
        simp [alist_keys, hk.symm]
      rw [if_pos this]
      simp [alist_keys]
    · rw [upd_score, if_neg hk]
      by_cases hmem : key ∈ alist_keys rest
      · have h2 : key ∈ alist_keys ((k, s) :: rest) := by
          simp only [alist_keys, List.map_cons, List.mem_cons]
          exact Or.inr hmem
        rw [if_pos h2]
        have h3 := alist_keys_upd_score rest key v
        rw [if_pos hmem] at h3
        simp only [alist_keys, List.map_cons] at h3 ⊢
        rw [h3]
      · have h2 : ¬(key ∈ alist_keys ((k, s) :: rest)) := by
          simp only [alist_keys, List.map_cons, List.mem_cons]
          push_neg
          exact ⟨fun h => hk h.symm, fun h => hmem (by simpa [alist_keys] using h)⟩
        rw [if_neg h2]
        have h3 := alist_keys_upd_score rest key v
        rw [if_neg hmem] at h3
        simp only [alist_keys, List.map_cons] at h3 ⊢
        rw [h3]
        simp

theorem mem_keys_upd_score (m : List (String × ℚ)) (key doc_id : String) (v : ℚ) :
    doc_id ∈ alist_keys (upd_score m key v) ↔ doc_id ∈ alist_keys m ∨ doc_id = key := by
  rw [alist_keys_upd_score]
  by_cases hmem : key ∈ alist_keys m
  · rw [if_pos hmem]
    constructor
    · exact Or.inl
    · intro h
      rcases h with h | h
      · exact h
      · exact h ▸ hmem
  · rw [if_neg hmem]
    simp

theorem nodup_keys_upd_score {m : List (String × ℚ)} (h : (alist_keys m).Nodup)
    (key : String) (v : ℚ) : (alist_keys (upd_score m key v)).Nodup := by
  rw [alist_keys_upd_score]
  by_cases hmem : key ∈ alist_keys m
  · rw [if_pos hmem]
    exact h
  · rw [if_neg hmem]
    simp [List.nodup_append, h, hmem]

theorem alist_lookup_upd_data (data : List (String × Source)) (key doc_id : String)
    (src : Source) :
    alist_lookup (upd_data data key src) doc_id =
      match alist_lookup data doc_id with
      | some s => some s
      | none => if key = doc_id then some src else none := by
  unfold upd_data
  by_cases hp : (alist_lookup data key).isSome = true
  · rw [if_pos hp]
    cases hl : alist_lookup data doc_id with
    | some s => rfl
    | none =>
      by_cases hkd : key = doc_id
      · rw [hkd] at hp
        rw [hl] at hp
        simp at hp
      · simp [hkd]
  · rw [if_neg hp]
    rw [alist_lookup_append]
    cases hl : alist_lookup data doc_id with
    | some s => rfl
    | none => simp [alist_lookup]

theorem mem_keys_upd_data (data : List (String × Source)) (key doc_id : String)
    (src : Source) :
    doc_id ∈ alist_keys (upd_data data key src) ↔
      doc_id ∈ alist_keys data ∨ doc_id = key := by
  unfold upd_data
  by_cases hp : (alist_lookup data key).isSome = true
  · rw [if_pos hp]
    constructor
    · exact Or.inl
    · intro h
      rcases h with h | h
      · exact h
      · rw [h]
        exact (mem_keys_iff_lookup_isSome data key).mpr hp
  · rw [if_neg hp]
    simp [alist_keys]

/-! ## Fusion-fold lemmas -/

theorem rrf_fold_fst_score (k : ℚ) :
    ∀ (hits : List Hit) (rank : ℚ) (scores : List (String × ℚ))
      (data : List (String × Source)) (doc_id : String),
      score_of (rrf_fold k hits rank scores data).1 doc_id =
        score_of scores doc_id + list_contrib k hits rank doc_id
  | [], rank, scores, data, doc_id => by simp [rrf_fold, list_contrib]
  | hit :: rest, rank, scores, data, doc_id => by
    rw [rrf_fold, rrf_fold_fst_score k rest (rank + 1) _ _ doc_id, score_of_upd_score,
      list_contrib]
    ring

theorem rrf_fold_mem_keys (k : ℚ) :
    ∀ (hits : List Hit) (rank : ℚ) (scores : List (String × ℚ))
      (data : List (String × Source)) (doc_id : String),
      doc_id ∈ alist_keys (rrf_fold k hits rank scores data).1 ↔
        doc_id ∈ alist_keys scores ∨ doc_id ∈ hit_ids hits
  | [], rank, scores, data, doc_id => by simp [rrf_fold, hit_ids]
  | hit :: rest, rank, scores, data, doc_id => by
    rw [rrf_fold, rrf_fold_mem_keys k rest (rank + 1) _ _ doc_id, mem_keys_upd_score]
    simp only [hit_ids, List.map_cons, List.mem_cons]
    constructor
    · intro h
      rcases h with (h | h) | h
      · exact Or.inl h
      · exact Or.inr (Or.inl h)
      · exact Or.inr (Or.inr h)
    · intro h
      rcases h with h | h | h
      · exact Or.inl (Or.inl h)
      · exact Or.inl (Or.inr h)
      · exact Or.inr h

theorem rrf_fold_nodup_keys (k : ℚ) :
    ∀ (hits : List Hit) (rank : ℚ) (scores : List (String × ℚ))
      (data : List (String × Source)),
      (alist_keys scores).Nodup → (alist_keys (rrf_fold k hits rank scores data).1).Nodup
  | [], rank, scores, data, h => h
  | hit :: rest, rank, scores, data, h => by
    rw [rrf_fold]
    exact rrf_fold_nodup_keys k rest (rank + 1) _ _ (nodup_keys_upd_score h _ _)

theorem rrf_fold_snd_lookup (k : ℚ) :
    ∀ (hits : List Hit) (rank : ℚ) (scores : List (String × ℚ))
      (data : List (String × Source)) (doc_id : String),
      alist_lookup (rrf_fold k hits rank scores data).2 doc_id =
        match alist_lookup data doc_id with
        | some s => some s
        | none => first_source hits doc_id
  | [], rank, scores, data, doc_id => by
    rw [rrf_fold]
    cases alist_lookup data doc_id <;> simp [first_source]
  | hit :: rest, rank, scores, data, doc_id => by
    rw [rrf_fold, rrf_fold_snd_lookup k rest (rank + 1) _ _ doc_id, alist_lookup_upd_data]
    cases hl : alist_lookup data doc_id with
    | some s => rfl
    | none =>
      dsimp only
      rw [first_source]
      by_cases hid : hit.source.id = doc_id
      · rw [if_pos hid, if_pos hid]
      · rw [if_neg hid, if_neg hid]

theorem rrf_fold_mem_keys_data (k : ℚ) :
    ∀ (hits : List Hit) (rank : ℚ) (scores : List (String × ℚ))
      (data : List (String × Source)) (doc_id : String),
      doc_id ∈ alist_keys (rrf_fold k hits rank scores data).2 ↔
        doc_id ∈ alist_keys data ∨ doc_id ∈ hit_ids hits
  | [], rank, scores, data, doc_id => by simp [rrf_fold, hit_ids]
  | hit :: rest, rank, scores, data, doc_id => by
    rw [rrf_fold, rrf_fold_mem_keys_data k rest (rank + 1) _ _ doc_id, mem_keys_upd_data]
    simp only [hit_ids, List.map_cons, List.mem_cons]
    constructor
    · intro h
      rcases h with (h | h) | h
      · exact Or.inl h
      · exact Or.inr (Or.inl h)
      · exact Or.inr (Or.inr h)
    · intro h
      rcases h with h | h | h
      · exact Or.inl (Or.inl h)
      · exact Or.inl (Or.inr h)
      · exact Or.inr h

theorem rrf_fold_data_inv (k : ℚ) :
    ∀ (hits : List Hit) (rank : ℚ) (scores : List (String × ℚ))
      (data : List (String × Source)),
      (∀ p ∈ data, (p : String × Source).2.id = p.1) →
      ∀ p ∈ (rrf_fold k hits rank scores data).2, (p : String × Source).2.id = p.1
  | [], rank, scores, data, hinv => hinv
  | hit :: rest, rank, scores, data, hinv => by
    rw [rrf_fold]
    apply rrf_fold_data_inv k rest (rank + 1)
    intro p hp
    unfold upd_data at hp
    by_cases hs : (alist_lookup data hit.source.id).isSome = true
    · rw [if_pos hs] at hp
      exact hinv p hp
    · rw [if_neg hs] at hp
      rcases List.mem_append.mp hp with h | h
      · exact hinv p h
      · simp only [List.mem_singleton] at h
        rw [h]

/-! ## Rank and contribution lemmas -/

theorem list_contrib_nonneg {k : ℚ} (hk : 0 < k) :
    ∀ (hits : List Hit) (rank : ℚ), 0 ≤ rank → ∀ (doc_id : String),
      0 ≤ list_contrib k hits rank doc_id
  | [], rank, _, doc_id => le_refl 0
  | hit :: rest, rank, hr, doc_id => by
    rw [list_contrib]
    apply add_nonneg
    · by_cases hid : hit.source.id = doc_id
      · rw [if_pos hid]
        positivity
      · rw [if_neg hid]
    · exact list_contrib_nonneg hk rest (rank + 1) (by linarith) doc_id

theorem list_contrib_pos {k : ℚ} (hk : 0 < k) :
    ∀ (hits : List Hit) (rank : ℚ), 0 ≤ rank → ∀ (doc_id : String),
      doc_id ∈ hit_ids hits → 0 < list_contrib k hits rank doc_id
  | [], rank, _, doc_id, h => by simp [hit_ids] at h
  | hit :: rest, rank, hr, doc_id, h => by
    rw [list_contrib]
    simp only [hit_ids, List.map_cons, List.mem_cons] at h
    by_cases hid : hit.source.id = doc_id
    · rw [if_pos hid]
      have h1 : 0 < 1 / (k + rank) := by positivity
      have h2 := list_contrib_nonneg hk rest (rank + 1) (by linarith) doc_id
      linarith
    · rw [if_neg hid]
      rcases h with h | h
      · exact absurd h.symm hid
      · have := list_contrib_pos hk rest (rank + 1) (by linarith) doc_id h
        linarith

theorem list_contrib_of_not_mem (k : ℚ) :
    ∀ (hits : List Hit) (rank : ℚ) (doc_id : String),
      doc_id ∉ hit_ids hits → list_contrib k hits rank doc_id = 0
  | [], rank, doc_id, _ => rfl
  | hit :: rest, rank, doc_id, h => by
    simp only [hit_ids, List.map_cons, List.mem_cons] at h
    push_neg at h
    rw [list_contrib, if_neg (fun he => h.1 he.symm),
      list_contrib_of_not_mem k rest (rank + 1) doc_id h.2]
    ring

theorem rank_of_eq_none :
    ∀ (hits : List Hit) (doc_id : String),
      rank_of hits doc_id = none ↔ doc_id ∉ hit_ids hits
  | [], doc_id => by simp [rank_of, hit_ids]
  | hit :: rest, doc_id => by
    rw [rank_of]
    by_cases hid : hit.source.id = doc_id
    · simp [hit_ids, if_pos hid, hid]
    · simp only [if_neg hid, hit_ids, List.map_cons, List.mem_cons]
      rw [Option.map_eq_none']
      rw [rank_of_eq_none rest doc_id]
      simp [hit_ids]
      tauto

theorem rank_of_pos :
    ∀ (hits : List Hit) (doc_id : String) (r : ℕ),
      rank_of hits doc_id = some r → 1 ≤ r
  | [], doc_id, r, h => by simp [rank_of] at h
  | hit :: rest, doc_id, r, h => by
    rw [rank_of] at h
    by_cases hid : hit.source.id = doc_id
    · rw [if_pos hid] at h
      simp only [Option.some_inj] at h
      omega
    · rw [if_neg hid] at h
      cases hr : rank_of rest doc_id with
      | none => rw [hr] at h; simp at h
      | some j =>
        rw [hr] at h
        simp only [Option.map_some', Option.some_inj] at h
        have := rank_of_pos rest doc_id j hr
        omega

theorem list_contrib_nodup (k : ℚ) :
    ∀ (hits : List Hit) (rank : ℚ) (doc_id : String),
      (hit_ids hits).Nodup → 1 ≤ rank →
      list_contrib k hits rank doc_id =
        match rank_of hits doc_id with
        | some j => 1 / (k + (rank - 1 + (j : ℚ)))
        | none => 0
  | [], rank, doc_id, _, _ => rfl
  | hit :: rest, rank, doc_id, hnd, hrank => by
    have hnd_rest : (hit_ids rest).Nodup := by
      simpa [hit_ids] using hnd.of_cons
    have hhead : hit.source.id ∉ hit_ids rest := by
      simp only [hit_ids, List.map_cons, List.nodup_cons] at hnd
      simpa [hit_ids] using hnd.1
    rw [list_contrib, rank_of]
    by_cases hid : hit.source.id = doc_id
    · rw [if_pos hid, if_pos hid]
      have hnot : doc_id ∉ hit_ids rest := hid ▸ hhead
      rw [list_contrib_of_not_mem k rest (rank + 1) doc_id hnot]
      dsimp only
      norm_num
    · rw [if_neg hid, if_neg hid]
      rw [list_contrib_nodup k rest (rank + 1) doc_id hnd_rest (by linarith)]
      cases hr : rank_of rest doc_id with
      | none => simp
      | some j =>
        simp only [Option.map_some']
        have hcast : ((j + 1 : ℕ) : ℚ) = (j : ℚ) + 1 := by push_cast; ring
        rw [hcast]
        ring_nf

theorem list_contrib_one_eq_rrf_contrib (k : ℚ) (hits : List Hit) (doc_id : String)
    (h : (hit_ids hits).Nodup) :
    list_contrib k hits 1 doc_id = rrf_contrib k hits doc_id := by
  rw [list_contrib_nodup k hits 1 doc_id h (le_refl 1)]
  unfold rrf_contrib
  cases rank_of hits doc_id with
  | none => rfl
  | some j => norm_num

theorem rrf_contrib_nonneg {k : ℚ} (hk : 0 < k) (hits : List Hit) (doc_id : String) :
    0 ≤ rrf_contrib k hits doc_id := by
  unfold rrf_contrib
  cases hr : rank_of hits doc_id with
  | none => exact le_refl 0
  | some j =>
    have := rank_of_pos hits doc_id j hr
    positivity

theorem rrf_contrib_le {k : ℚ} (hk : 0 < k) (hits : List Hit) (doc_id : String) :
    rrf_contrib k hits doc_id ≤ 1 / (k + 1) := by
  unfold rrf_contrib
  cases hr : rank_of hits doc_id with
  | none => positivity
  | some j =>
    have hj := rank_of_pos hits doc_id j hr
    apply one_div_le_one_div_of_le (by linarith)
    have : (1 : ℚ) ≤ (j : ℚ) := by exact_mod_cast hj
    linarith

theorem rrf_contrib_pos {k : ℚ} (hk : 0 < k) (hits : List Hit) (doc_id : String)
    (hmem : doc_id ∈ hit_ids hits) : 0 < rrf_contrib k hits doc_id := by
  unfold rrf_contrib
  cases hr : rank_of hits doc_id with
  | none =>
    rw [rank_of_eq_none] at hr
    exact absurd hmem hr
  | some j =>
    have hj := rank_of_pos hits doc_id j hr
    positivity

theorem first_source_eq_none :
    ∀ (hits : List Hit) (doc_id : String),
      first_source hits doc_id = none ↔ doc_id ∉ hit_ids hits
  | [], doc_id => by simp [first_source, hit_ids]
  | hit :: rest, doc_id => by
    rw [first_source]
    by_cases hid : hit.source.id = doc_id
    · simp [if_pos hid, hit_ids, hid]
    · rw [if_neg hid, first_source_eq_none rest doc_id]
      simp only [hit_ids, List.map_cons, List.mem_cons]
      simp [hit_ids]
      tauto

theorem first_source_id :
    ∀ (hits : List Hit) (doc_id : String) (src : Source),
      first_source hits doc_id = some src → src.id = doc_id
  | [], doc_id, src, h => by simp [first_source] at h
  | hit :: rest, doc_id, src, h => by
    rw [first_source] at h
    by_cases hid : hit.source.id = doc_id
    · rw [if_pos hid] at h
      simp only [Option.some_inj] at h
      rw [← h]
      exact hid
    · rw [if_neg hid] at h
      exact first_source_id rest doc_id src h

/-! ## Sorting and truncation lemmas -/

theorem insert_desc_perm (x : String × ℚ) :
    ∀ l : List (String × ℚ), (insert_desc x l).Perm (x :: l)
  | [] => List.Perm.refl _
  | y :: ys => by
    rw [insert_desc]
    by_cases h : y.2 ≤ x.2
    · rw [if_pos h]
    · rw [if_neg h]
      exact ((insert_desc_perm x ys).cons y).trans (List.Perm.swap x y ys)

theorem sort_by_score_desc_perm :
    ∀ l : List (String × ℚ), (sort_by_score_desc l).Perm l
  | [] => List.Perm.refl _
  | x :: xs =>
    (insert_desc_perm x (sort_by_score_desc xs)).trans
      ((sort_by_score_desc_perm xs).cons x)

theorem insert_desc_sorted (x : String × ℚ) :
    ∀ l : List (String × ℚ),
      List.Sorted (fun a b : String × ℚ => b.2 ≤ a.2) l →
      List.Sorted (fun a b : String × ℚ => b.2 ≤ a.2) (insert_desc x l)
  | [], _ => List.sorted_singleton x
  | y :: ys, h => by
    rw [insert_desc]
    by_cases hxy : y.2 ≤ x.2
    · rw [if_pos hxy]
      refine List.sorted_cons.mpr ⟨?_, h⟩
      intro b hb
      rcases List.mem_cons.mp hb with hb | hb
      · rw [hb]
        exact hxy
      · exact le_trans (List.rel_of_sorted_cons h b hb) hxy
    · rw [if_neg hxy]
      have hys : List.Sorted (fun a b : String × ℚ => b.2 ≤ a.2) ys := h.of_cons
      refine List.sorted_cons.mpr ⟨?_, insert_desc_sorted x ys hys⟩
      intro b hb
      have hb' : b ∈ x :: ys := (insert_desc_perm x ys).subset hb
      rcases List.mem_cons.mp hb' with hb' | hb'
      · rw [hb']
        linarith [lt_of_not_le hxy]
      · exact List.rel_of_sorted_cons h b hb'

theorem sort_by_score_desc_sorted :
    ∀ l : List (String × ℚ),
      List.Sorted (fun a b : String × ℚ => b.2 ≤ a.2) (sort_by_score_desc l)
  | [] => List.sorted_nil
  | x :: xs => insert_desc_sorted x _ (sort_by_score_desc_sorted xs)

theorem py_take_sublist {α : Type} (n : ℤ) (l : List α) : (py_take n l).Sublist l := by
  unfold py_take
  by_cases h : 0 ≤ n
  · rw [if_pos h]
    exact List.take_sublist _ _
  · rw [if_neg h]
    exact List.take_sublist _ _

/-! ## Accumulator-level facts about `rrf_acc` -/

theorem fused_score_eq_contribs (b s : List Hit) (k : ℚ) (doc_id : String) :
    fused_score b s k doc_id = list_contrib k b 1 doc_id + list_contrib k s 1 doc_id := by
  show score_of (rrf_acc b s k).1 doc_id = _
  unfold rrf_acc
  rw [rrf_fold_fst_score, rrf_fold_fst_score]
  simp [score_of, alist_lookup]

theorem mem_keys_rrf_acc (b s : List Hit) (k : ℚ) (doc_id : String) :
    doc_id ∈ alist_keys (rrf_acc b s k).1 ↔
      doc_id ∈ hit_ids b ∨ doc_id ∈ hit_ids s := by
  unfold rrf_acc
  rw [rrf_fold_mem_keys, rrf_fold_mem_keys]
  simp [alist_keys]

theorem nodup_keys_rrf_acc (b s : List Hit) (k : ℚ) :
    (alist_keys (rrf_acc b s k).1).Nodup := by
  unfold rrf_acc
  apply rrf_fold_nodup_keys
  apply rrf_fold_nodup_keys
  simp [alist_keys]

theorem rrf_acc_data_lookup (b s : List Hit) (k : ℚ) (doc_id : String) :
    alist_lookup (rrf_acc b s k).2 doc_id =
      match first_source b doc_id with
      | some src => some src
      | none => first_source s doc_id := by
  unfold rrf_acc
  rw [rrf_fold_snd_lookup, rrf_fold_snd_lookup]
  simp only [alist_lookup]

theorem mem_keys_rrf_acc_data (b s : List Hit) (k : ℚ) (doc_id : String) :
    doc_id ∈ alist_keys (rrf_acc b s k).2 ↔
      doc_id ∈ hit_ids b ∨ doc_id ∈ hit_ids s := by
  unfold rrf_acc
  rw [rrf_fold_mem_keys_data, rrf_fold_mem_keys_data]
  simp [alist_keys]

theorem rrf_acc_data_inv (b s : List Hit) (k : ℚ) :
    ∀ p ∈ (rrf_acc b s k).2, (p : String × Source).2.id = p.1 := by
  unfold rrf_acc
  apply rrf_fold_data_inv
  apply rrf_fold_data_inv
  intro p hp
  simp at hp

theorem fused_score_pos (b s : List Hit) (doc_id : String)
    (h : doc_id ∈ hit_ids b ∨ doc_id ∈ hit_ids s) :
    0 < fused_score b s 60 doc_id := by
  rw [fused_score_eq_contribs]
  have h60 : (0 : ℚ) < 60 := by norm_num
  rcases h with h | h
  · have h1 := list_contrib_pos h60 b 1 (by norm_num) doc_id h
    have h2 := list_contrib_nonneg h60 s 1 (by norm_num) doc_id
    linarith
  · have h1 := list_contrib_nonneg h60 b 1 (by norm_num) doc_id
    have h2 := list_contrib_pos h60 s 1 (by norm_num) doc_id h
    linarith

/-- Every scored key of the accumulator has a stored payload whose
`id` field is that key. -/
theorem acc_key_payload {b s : List Hit} {k : ℚ} {p : String × ℚ}
    (hp : p ∈ (rrf_acc b s k).1) :
    ∃ src : Source, alist_lookup (rrf_acc b s k).2 p.1 = some src ∧ src.id = p.1 := by
  have hkey : p.1 ∈ alist_keys (rrf_acc b s k).1 :=
    List.mem_map_of_mem (fun q => q.1) hp
  have hmem2 := (mem_keys_rrf_acc b s k p.1).mp hkey
  have hdata_key : p.1 ∈ alist_keys (rrf_acc b s k).2 :=
    (mem_keys_rrf_acc_data b s k p.1).mpr hmem2
  have hsome := (mem_keys_iff_lookup_isSome _ p.1).mp hdata_key
  obtain ⟨src, hsrc⟩ := Option.isSome_iff_exists.mp hsome
  exact ⟨src, hsrc, rrf_acc_data_inv b s k (p.1, src) (alist_lookup_mem _ _ _ hsrc)⟩

/-- Characterization of each emitted result of
`reciprocal_rank_fusion`: it carries the first-seen payload (BM25 list
first) of its id and the fused score of its id, and its id occurs in at
least one input list. -/
theorem rrf_result_spec {b s : List Hit} {k : ℚ} {n : ℤ} {res : SearchResult}
    (h : res ∈ reciprocal_rank_fusion b s k n) :
    ∃ src : Source,
      alist_lookup (rrf_acc b s k).2 res.id = some src ∧
      res.id = src.id ∧ res.title = src.title ∧ res.excerpt = src.excerpt ∧
      res.body_text = src.body_text ∧ res.tags = src.tags ∧
      res.published_at = src.published_at ∧
      res.score = fused_score b s k res.id ∧
      (res.id ∈ hit_ids b ∨ res.id ∈ hit_ids s) := by
  unfold reciprocal_rank_fusion at h
  dsimp only at h
  rcases List.mem_map.mp h with ⟨p, hp, hres⟩
  have hp1 : p ∈ sort_by_score_desc (rrf_acc b s k).1 :=
    (py_take_sublist n _).subset hp
  have hp2 : p ∈ (rrf_acc b s k).1 := (sort_by_score_desc_perm _).subset hp1
  obtain ⟨src, hsrc, hid⟩ := acc_key_payload hp2
  have hres_fields : res =
      { id := src.id, title := src.title, excerpt := src.excerpt,
        body_text := src.body_text, tags := src.tags, published_at := src.published_at,
        score := p.2 } := by
    rw [← hres, hsrc]
    rfl
  have hres_id : res.id = p.1 := by
    rw [hres_fields]
    exact hid
  have hscore : score_of (rrf_acc b s k).1 p.1 = p.2 := by
    rw [score_of, alist_lookup_of_mem_nodup (nodup_keys_rrf_acc b s k) hp2]
    rfl
  have hkeymem : p.1 ∈ alist_keys (rrf_acc b s k).1 :=
    List.mem_map_of_mem (fun q => q.1) hp2
  refine ⟨src, ?_, ?_, ?_, ?_, ?_, ?_, ?_, ?_, ?_⟩
  · rw [hres_id]
    exact hsrc
  · rw [hres_fields]
  · rw [hres_fields]
  · rw [hres_fields]
  · rw [hres_fields]
  · rw [hres_fields]
  · rw [hres_fields]
  · show res.score = fused_score b s k res.id
    rw [hres_id]
    show res.score = score_of (rrf_acc b s k).1 p.1
    rw [hscore, hres_fields]
  · rw [hres_id]
    exact (mem_keys_rrf_acc b s k p.1).mp hkeymem

/-- The ids of the fused output are pairwise distinct. -/
theorem rrf_output_ids_nodup (b s : List Hit) (k : ℚ) (n : ℤ) :
    ((reciprocal_rank_fusion b s k n).map (fun r => r.id)).Nodup := by
  unfold reciprocal_rank_fusion
  dsimp only
  rw [List.map_map]
  have hcongr :
      (py_take n (sort_by_score_desc (rrf_acc b s k).1)).map
          ((fun r : SearchResult => r.id) ∘ fun p =>
            { id := ((alist_lookup (rrf_acc b s k).2 p.1).getD default).id,
              title := ((alist_lookup (rrf_acc b s k).2 p.1).getD default).title,
              excerpt := ((alist_lookup (rrf_acc b s k).2 p.1).getD default).excerpt,
              body_text := ((alist_lookup (rrf_acc b s k).2 p.1).getD default).body_text,
              tags := ((alist_lookup (rrf_acc b s k).2 p.1).getD default).tags,
              published_at := ((alist_lookup (rrf_acc b s k).2 p.1).getD default).published_at,
              score := p.2 }) =
        (py_take n (sort_by_score_desc (rrf_acc b s k).1)).map (fun p => p.1) := by
    apply List.map_congr_left
    intro p hp
    have hp2 : p ∈ (rrf_acc b s k).1 :=
      (sort_by_score_desc_perm _).subset ((py_take_sublist n _).subset hp)
    obtain ⟨src, hsrc, hid⟩ := acc_key_payload hp2
    simp only [Function.comp_apply, hsrc, Option.getD_some]
    exact hid
  rw [hcongr]
  have hkeys : ((sort_by_score_desc (rrf_acc b s k).1).map
      (fun p : String × ℚ => p.1)).Nodup := by
    have hperm :=
      (sort_by_score_desc_perm (rrf_acc b s k).1).map (fun p : String × ℚ => p.1)
    exact hperm.nodup_iff.mpr (nodup_keys_rrf_acc b s k)
  exact List.Nodup.sublist
    ((py_take_sublist n (sort_by_score_desc (rrf_acc b s k).1)).map
      (fun p : String × ℚ => p.1)) hkeys

/-- C1: with `k = 60`, every fused output score is the sum of
`1/(60 + rank)` over the input lists containing the document (ranks
1-based in backend order), hence lies in `(0, 2/(60+1)]`; and the fused
score of a document ranked 1 in both lists of a fusion strictly exceeds
the fused score of a document ranked 1 in one list and absent from the
other. -/
theorem C1_rrf_score_formula_and_bounds :
    (∀ (b s : List Hit) (top_k : ℤ), b ≠ [] → s ≠ [] →
      (hit_ids b).Nodup → (hit_ids s).Nodup →
      ∀ res ∈ reciprocal_rank_fusion b s 60 top_k,
        res.score = rrf_contrib 60 b res.id + rrf_contrib 60 s res.id ∧
        0 < res.score ∧ res.score ≤ 2 / (60 + 1)) ∧
    (∀ (b s b' s' : List Hit) (a c : String),
      (hit_ids b).Nodup → (hit_ids s).Nodup →
      (hit_ids b').Nodup → (hit_ids s').Nodup →
      rank_of b a = some 1 → rank_of s a = some 1 →
      ((rank_of b' c = some 1 ∧ c ∉ hit_ids s') ∨
        (rank_of s' c = some 1 ∧ c ∉ hit_ids b')) →
      fused_score b' s' 60 c < fused_score b s 60 a) := by
  constructor
  · intro b s top_k hb hs nb ns res hres
    obtain ⟨src, h1, h2, h3, h4, h5, h6, h7, h8, h9⟩ := rrf_result_spec hres
    have hformula : fused_score b s 60 res.id =
        rrf_contrib 60 b res.id + rrf_contrib 60 s res.id := by
      rw [fused_score_eq_contribs, list_contrib_one_eq_rrf_contrib 60 b _ nb,
        list_contrib_one_eq_rrf_contrib 60 s _ ns]
    refine ⟨by rw [h8, hformula], ?_, ?_⟩
    · rw [h8]
      exact fused_score_pos b s res.id h9
    · rw [h8, hformula]
      have h60 : (0 : ℚ) < 60 := by norm_num
      have hb1 := rrf_contrib_le h60 b res.id
      have hs1 := rrf_contrib_le h60 s res.id
      have h2161 : (1 : ℚ) / (60 + 1) + 1 / (60 + 1) = 2 / (60 + 1) := by norm_num
      linarith
  · intro b s b' s' a c nb ns nb' ns' hba hsa hc
    have hca : fused_score b s 60 a = 2 / 61 := by
      rw [fused_score_eq_contribs, list_contrib_one_eq_rrf_contrib 60 b _ nb,
        list_contrib_one_eq_rrf_contrib 60 s _ ns]
      unfold rrf_contrib
      rw [hba, hsa]
      norm_num
    have hcc : fused_score b' s' 60 c = 1 / 61 := by
      rw [fused_score_eq_contribs, list_contrib_one_eq_rrf_contrib 60 b' _ nb',
        list_contrib_one_eq_rrf_contrib 60 s' _ ns']
      unfold rrf_contrib
      rcases hc with ⟨hr1, hr2⟩ | ⟨hr1, hr2⟩
      · rw [hr1, (rank_of_eq_none s' c).mpr hr2]
        norm_num
      · rw [hr1, (rank_of_eq_none b' c).mpr hr2]
        norm_num
    rw [hca, hcc]
    norm_num

/-- Witness for C1 at concrete singleton candidate lists. -/
theorem C1_witness :
    (∀ res ∈ reciprocal_rank_fusion [hitA] [hitB] 60 2,
      res.score = rrf_contrib 60 [hitA] res.id + rrf_contrib 60 [hitB] res.id ∧
      0 < res.score ∧ res.score ≤ 2 / (60 + 1)) ∧
    fused_score [hitD] [hitB] 60 ("D") < fused_score [hitA] [hitA] 60 ("A") :=
  ⟨C1_rrf_score_formula_and_bounds.1 [hitA] [hitB] 2 (by decide) (by decide)
      (by decide) (by decide),
   C1_rrf_score_formula_and_bounds.2 [hitA] [hitA] [hitD] [hitB] ("A") ("D")
      (by decide) (by decide) (by decide) (by decide) (by decide) (by decide)
      (Or.inl ⟨by decide, by decide⟩)⟩

/-- C2: the fused output never repeats an id, contains no id absent
from both input lists, every id present in at least one list gets a
positive fused score, and fusing `[A,B,C]` with `[B,D,A]` at
`topK = 4` yields exactly `B, A, D, C` with the expected two-list sums
for `A` and `B`. -/
theorem C2_rrf_dedup_membership_and_example :
    (∀ (b s : List Hit) (top_k : ℤ),
      ((reciprocal_rank_fusion b s 60 top_k).map (fun r => r.id)).Nodup) ∧
    (∀ (b s : List Hit) (top_k : ℤ) (res : SearchResult),
      res ∈ reciprocal_rank_fusion b s 60 top_k →
      res.id ∈ hit_ids b ∨ res.id ∈ hit_ids s) ∧
    (∀ (b s : List Hit) (doc_id : String),
      doc_id ∈ hit_ids b ∨ doc_id ∈ hit_ids s → 0 < fused_score b s 60 doc_id) ∧
    (reciprocal_rank_fusion [hitA, hitB, hitC] [hitB, hitD, hitA] 60 4).map
        (fun r => (r.id, r.score)) =
      [(("B"), 1/62 + 1/61), (("A"), 1/61 + 1/63), (("D"), 1/62), (("C"), 1/63)] := by
  refine ⟨fun b s top_k => rrf_output_ids_nodup b s 60 top_k, ?_, fused_score_pos, ?_⟩
  · intro b s top_k res hres
    obtain ⟨src, h1, h2, h3, h4, h5, h6, h7, h8, h9⟩ := rrf_result_spec hres
    exact h9
  · decide

/-- Witness for C2's conditional parts at a concrete id and lists. -/
theorem C2_witness :
    (("A") ∈ hit_ids [hitA] ∨ ("A") ∈ hit_ids [hitB]) ∧
      0 < fused_score [hitA] [hitB] 60 ("A") :=
  ⟨Or.inl (by decide),
   C2_rrf_dedup_membership_and_example.2.2.1 [hitA] [hitB] ("A")
     (Or.inl (by decide))⟩

/-- C3: once a document id has a stored payload in the fusion
accumulator, later occurrences only add `1/(k+rank)` to its score and
never replace the payload; a document appearing only in the semantic
list is emitted with exactly its semantic hit's fields. -/
theorem C3_payload_first_seen_and_score_additivity :
    (∀ (k : ℚ) (hits : List Hit) (rank : ℚ) (scores : List (String × ℚ))
      (data : List (String × Source)) (doc_id : String),
      (alist_lookup data doc_id).isSome = true →
      alist_lookup (rrf_fold k hits rank scores data).2 doc_id =
        alist_lookup data doc_id) ∧
    (∀ (k : ℚ) (hits : List Hit) (rank : ℚ) (scores : List (String × ℚ))
      (data : List (String × Source)) (doc_id : String),
      score_of (rrf_fold k hits rank scores data).1 doc_id =
        score_of scores doc_id + list_contrib k hits rank doc_id) ∧
    (∀ (b s : List Hit) (top_k : ℤ) (doc_id : String) (src : Source)
      (res : SearchResult),
      doc_id ∉ hit_ids b → first_source s doc_id = some src →
      res ∈ reciprocal_rank_fusion b s 60 top_k → res.id = doc_id →
      res.title = src.title ∧ res.excerpt = src.excerpt ∧
      res.body_text = src.body_text ∧ res.tags = src.tags ∧
      res.published_at = src.published_at) := by
  refine ⟨?_, rrf_fold_fst_score, ?_⟩
  · intro k hits rank scores data doc_id hsome
    rw [rrf_fold_snd_lookup]
    cases hl : alist_lookup data doc_id with
    | some v => rfl
    | none =>
      rw [hl] at hsome
      simp at hsome
  · intro b s top_k doc_id src res hnb hfirst hres hid
    obtain ⟨src0, h1, h2, h3, h4, h5, h6, h7, h8, h9⟩ := rrf_result_spec hres
    have hlook : alist_lookup (rrf_acc b s 60).2 doc_id = some src := by
      rw [rrf_acc_data_lookup, (first_source_eq_none b doc_id).mpr hnb]
      exact hfirst
    rw [hid] at h1
    rw [hlook] at h1
    simp only [Option.some_inj] at h1
    rw [← h1] at h3 h4 h5 h6 h7
    exact ⟨h3, h4, h5, h6, h7⟩

/-- Witness for C3 at concrete accumulators and lists. -/
theorem C3_witness :
    alist_lookup
        (rrf_fold 60 [hitB] 1 [] [(("A"), hitA.source)]).2 ("A") =
      alist_lookup [(("A"), hitA.source)] ("A") ∧
    ({ id := ("A"), title := none, excerpt := none, body_text := none,
       tags := [], published_at := none,
       score := 1/61 } : SearchResult).title = hitA.source.title :=
  ⟨C3_payload_first_seen_and_score_additivity.1 60 [hitB] 1 []
      [(("A"), hitA.source)] ("A") (by decide),
   (C3_payload_first_seen_and_score_additivity.2.2 [hitB] [hitA] 2 ("A")
      hitA.source
      { id := ("A"), title := none, excerpt := none, body_text := none,
        tags := [], published_at := none, score := 1/61 }
      (by decide) (by decide) (by decide) (by decide)).1⟩

/-- C9 (implicit): BM25 results are folded in before semantic results,
so a document present in both lists is emitted with the payload fields
of its BM25 hit, never those of its semantic hit. -/
theorem C9_bm25_payload_precedence (b s : List Hit) (top_k : ℤ) (doc_id : String)
    (src : Source) (res : SearchResult)
    (hfirst : first_source b doc_id = some src) (_hs : doc_id ∈ hit_ids s)
    (hres : res ∈ reciprocal_rank_fusion b s 60 top_k) (hid : res.id = doc_id) :
    res.title = src.title ∧ res.excerpt = src.excerpt ∧
      res.body_text = src.body_text ∧ res.tags = src.tags ∧
      res.published_at = src.published_at := by
  obtain ⟨src0, h1, h2, h3, h4, h5, h6, h7, h8, h9⟩ := rrf_result_spec hres
  have hlook : alist_lookup (rrf_acc b s 60).2 doc_id = some src := by
    rw [rrf_acc_data_lookup, hfirst]
  rw [hid] at h1
  rw [hlook] at h1
  simp only [Option.some_inj] at h1
  rw [← h1] at h3 h4 h5 h6 h7
  exact ⟨h3, h4, h5, h6, h7⟩

/-- Witness for C9: the same document at rank 1 of both lists. -/
theorem C9_witness :
    ({ id := ("A"), title := none, excerpt := none, body_text := none,
       tags := [], published_at := none,
       score := 1/61 + 1/61 } : SearchResult).title = hitA.source.title :=
  (C9_bm25_payload_precedence [hitA] [hitA] 1 ("A") hitA.source
    { id := ("A"), title := none, excerpt := none, body_text := none,
      tags := [], published_at := none, score := 1/61 + 1/61 }
    (by decide) (by decide) (by decide) (by decide)).1

/-- The fused output is ordered by fused score, descending, whatever
the inputs — in particular whatever sort override produced them. -/
theorem rrf_scores_sorted (b s : List Hit) (k : ℚ) (n : ℤ) :
    List.Sorted (fun x y : ℚ => y ≤ x)
      ((reciprocal_rank_fusion b s k n).map (fun r => r.score)) := by
  unfold reciprocal_rank_fusion
  dsimp only
  rw [List.map_map]
  have hpair : List.Pairwise (fun p q : String × ℚ => q.2 ≤ p.2)
      (py_take n (sort_by_score_desc (rrf_acc b s k).1)) :=
    List.Pairwise.sublist (py_take_sublist n _) (sort_by_score_desc_sorted _)
  show List.Pairwise _ _
  rw [List.pairwise_map]
  exact hpair

/-- C5: the weight-normalization step of HybridWeighted mode produces
weights summing to 1 for any non-negative inputs, maps a zero total to
`(1/2, 1/2)` without dividing, maps `(0,0) ↦ (1/2,1/2)`, leaves
`(0.2, 0.8)` unchanged and maps `(1,3) ↦ (1/4, 3/4)`; and the hybrid
branch of the orchestrator sends the backend exactly these normalized
weights as boosts. -/
theorem C5_weight_normalization :
    (∀ bw vw : ℚ, 0 ≤ bw → 0 ≤ vw →
      (normalized_weights bw vw).1 + (normalized_weights bw vw).2 = 1) ∧
    (∀ bw vw : ℚ, bw + vw = 0 → normalized_weights bw vw = (1/2, 1/2)) ∧
    normalized_weights 0 0 = (1/2, 1/2) ∧
    normalized_weights (2/10) (8/10) = (2/10, 8/10) ∧
    normalized_weights 1 3 = (1/4, 3/4) ∧
    (∀ (env : OrchestratorEnv) (req : SearchRequest),
      req.search_type = .hybrid → env.index_exists = true →
      search_articles env req =
        (let search_query := effective_query env.correction req.query
         let response := env.client (apply_sort
           (build_hybrid_query search_query (env.embed search_query) req.top_k
             (normalized_weights req.bm25_weight req.vector_weight).1
             (normalized_weights req.bm25_weight req.vector_weight).2) req.sort_by)
         .ok { query := req.query,
               processed_query :=
                 if (process env.correction req.query true).2 then
                   some (process env.correction req.query true).1
                 else none,
               total_results := response.total,
               results := format_hits response.hits })) := by
  refine ⟨?_, ?_, by decide, by decide, by decide, ?_⟩
  · intro bw vw hb hv
    unfold normalized_weights
    dsimp only
    by_cases h : bw + vw = 0
    · rw [if_pos h]
      norm_num
    · rw [if_neg h]
      dsimp only
      rw [div_add_div_same, div_self h]
  · intro bw vw h
    unfold normalized_weights
    dsimp only
    rw [if_pos h]
  · intro env req hst hidx
    unfold search_articles
    rw [if_neg (by rw [hidx]; simp), hst]

/-- Witness for C5 at concrete weights. -/
theorem C5_witness :
    (normalized_weights (1/4) (1/4)).1 + (normalized_weights (1/4) (1/4)).2 = 1 ∧
      normalized_weights (-1) 1 = (1/2, 1/2) ∧
      search_articles const_hit_env { reqQ with search_type := .hybrid } =
        .ok { query := ("q").data, processed_query := none, total_results := 1,
              results := format_hits [hitA] } :=
  ⟨C5_weight_normalization.1 (1/4) (1/4) (by norm_num) (by norm_num),
   C5_weight_normalization.2.1 (-1) 1 (by norm_num),
   by
    rw [C5_weight_normalization.2.2.2.2.2 const_hit_env
      { reqQ with search_type := .hybrid } rfl rfl]
    decide⟩

/-- C4 counterexample: with a backend whose candidate set depends on
the body's sort clause (as a backend honouring sort and `size` does),
a `date_desc` override in RRF mode returns a different document id set
than `relevance` — the override is not a pure post-fusion re-sort. -/
theorem C4_counterexample :
    result_ids (search_articles sort_cex_env { reqQ with sort_by := .date_desc }) ≠
      result_ids (search_articles sort_cex_env { reqQ with sort_by := .relevance }) := by
  decide

/-- C4 amended: `apply_sort` injects the sort clause into the backend
query body before execution rather than re-sorting after fusion:
`relevance` returns the body unchanged, the other overrides change
only the body's `sort` clause (never its `size` or query clauses); in
RRF mode the response is ordered by fused score for every override;
and whenever the backend's answers ignore the sort clause, every mode
returns exactly the `relevance` response. -/
theorem C4_sort_override_amended :
    (∀ body : SearchBody, apply_sort body .relevance = body) ∧
    (∀ (body : SearchBody) (sb : SortBy),
      (apply_sort body sb).size = body.size ∧ (apply_sort body sb).query = body.query) ∧
    (∀ (env : OrchestratorEnv) (req : SearchRequest) (resp : SearchResponse),
      req.search_type = .rrf → search_articles env req = .ok resp →
      List.Sorted (fun x y : ℚ => y ≤ x) (resp.results.map (fun r => r.score))) ∧
    (∀ (env : OrchestratorEnv) (req : SearchRequest) (sb : SortBy),
      (∀ b1 b2 : SearchBody, b1.size = b2.size → b1.query = b2.query →
        env.client b1 = env.client b2) →
      search_articles env { req with sort_by := sb } =
        search_articles env { req with sort_by := .relevance }) := by
  have h1 : ∀ body : SearchBody, apply_sort body .relevance = body := fun _ => rfl
  have h2 : ∀ (body : SearchBody) (sb : SortBy),
      (apply_sort body sb).size = body.size ∧ (apply_sort body sb).query = body.query := by
    intro body sb
    cases sb <;> exact ⟨rfl, rfl⟩
  refine ⟨h1, h2, ?_, ?_⟩
  · intro env req resp hrrf hok
    unfold search_articles at hok
    by_cases hidx : env.index_exists = false
    · rw [if_pos hidx] at hok
      exact absurd hok (by simp)
    · rw [if_neg hidx, hrrf] at hok
      dsimp only at hok
      simp only [Except.ok.injEq] at hok
      rw [← hok]
      exact rrf_scores_sorted _ _ 60 req.top_k
  · intro env req sb hcl
    have hclient : ∀ body : SearchBody, env.client (apply_sort body sb) = env.client body :=
      fun body => hcl _ _ (h2 body sb).1 (h2 body sb).2
    unfold search_articles
    by_cases hidx : env.index_exists = false
    · rw [if_pos hidx, if_pos hidx]
    · rw [if_neg hidx, if_neg hidx]
      dsimp only
      cases req.search_type <;> simp only [hclient, h1]

/-- Witness for C4's conditional parts at a sort-blind backend. -/
theorem C4_witness :
    (search_articles const_hit_env { reqQ with sort_by := .date_desc } =
      search_articles const_hit_env { reqQ with sort_by := .relevance }) ∧
    List.Sorted (fun x y : ℚ => y ≤ x)
      (({ query := ("q").data, processed_query := none, total_results := 1,
          results := reciprocal_rank_fusion [hitA] [hitA] 60 1 } :
            SearchResponse).results.map (fun r => r.score)) :=
  ⟨C4_sort_override_amended.2.2.2 const_hit_env reqQ .date_desc
      (fun _ _ _ _ => rfl),
   C4_sort_override_amended.2.2.1 const_hit_env reqQ
      { query := ("q").data, processed_query := none, total_results := 1,
        results := reciprocal_rank_fusion [hitA] [hitA] 60 1 }
      rfl (by decide)⟩

/-- C8 counterexample: the POST handler performs no range validation —
a request with `top_k = 1000` is served normally (the backend is
consulted and results returned), not rejected as `InvalidParameter`. -/
theorem C8_counterexample :
    search_articles const_hit_env { reqQ with search_type := .bm25, top_k := 1000 } =
      .ok { query := ("q").data, processed_query := none, total_results := 1,
            results := format_hits [hitA] } := by
  decide

/-- C8 amended: the GET handler rejects `top_k ∉ [1,100]` or a weight
outside `[0,1]` as `InvalidParameter` for every backend and embedder —
so nothing of the core runs — while in-range parameters are passed
through to the POST handler unchanged; the POST handler itself
performs no such validation (see the counterexample). -/
theorem C8_get_boundary_validation :
    (∀ (env : OrchestratorEnv) (q : List Char) (st : SearchType) (top_k : ℤ)
      (bw vw : ℚ),
      ¬(1 ≤ top_k ∧ top_k ≤ 100 ∧ 0 ≤ bw ∧ bw ≤ 1 ∧ 0 ≤ vw ∧ vw ≤ 1) →
      search_articles_get env q st top_k bw vw = .error .invalid_parameter) ∧
    (∀ (env : OrchestratorEnv) (q : List Char) (st : SearchType) (top_k : ℤ)
      (bw vw : ℚ),
      (1 ≤ top_k ∧ top_k ≤ 100 ∧ 0 ≤ bw ∧ bw ≤ 1 ∧ 0 ≤ vw ∧ vw ≤ 1) →
      search_articles_get env q st top_k bw vw =
        search_articles env
          { query := q, search_type := st, top_k := top_k, bm25_weight := bw,
            vector_weight := vw, sort_by := .relevance }) := by
  constructor
  · intro env q st top_k bw vw h
    unfold search_articles_get
    rw [if_neg h]
  · intro env q st top_k bw vw h
    unfold search_articles_get
    rw [if_pos h]

/-- Witness for C8 at concrete out-of-range and in-range parameters. -/
theorem C8_witness :
    search_articles_get const_hit_env (("q").data) .bm25 1000 (1/2) (1/2) =
        .error .invalid_parameter ∧
      search_articles_get const_hit_env (("q").data) .bm25 1 (1/2) (1/2) =
        search_articles const_hit_env
          { query := ("q").data, search_type := .bm25, top_k := 1,
            bm25_weight := 1/2, vector_weight := 1/2, sort_by := .relevance } :=
  ⟨C8_get_boundary_validation.1 const_hit_env (("q").data) .bm25 1000 (1/2) (1/2)
      (by norm_num),
   C8_get_boundary_validation.2 const_hit_env (("q").data) .bm25 1 (1/2) (1/2)
      (by norm_num)⟩

/-- C10 (implicit): when preprocessing yields an empty string the
orchestrator falls back to the original raw query — the truthiness
fallback of `api.py` line 497 — which is reachable (a query of only
special characters processes to empty) and effective in every
retrieval mode: each mode's backend query is built from the raw query. -/
theorem C10_empty_processed_query_fallback :
    (∀ (correction : List Char → Option (List Char)) (raw : List Char),
      (process correction raw true).1 = [] → effective_query correction raw = raw) ∧
    (∀ correction : List Char → Option (List Char),
      process correction (("!!! ???").data) true = ([], false)) ∧
    (∀ (env : OrchestratorEnv) (req : SearchRequest),
      env.index_exists = true →
      (process env.correction req.query true).1 = [] →
      search_articles env req =
        (let reported : Option (List Char) :=
           if (process env.correction req.query true).2 then
             some (process env.correction req.query true).1
           else none
         match req.search_type with
         | .bm25 =>
           let response := env.client
             (apply_sort (build_bm25_query req.query req.top_k) req.sort_by)
           .ok { query := req.query, processed_query := reported,
                 total_results := response.total,
                 results := format_hits response.hits }
         | .semantic =>
           let response := env.client
             (apply_sort (build_semantic_query (env.embed req.query) req.top_k)
               req.sort_by)
           .ok { query := req.query, processed_query := reported,
                 total_results := response.total,
                 results := format_hits response.hits }
         | .hybrid =>
           let weights := normalized_weights req.bm25_weight req.vector_weight
           let response := env.client
             (apply_sort (build_hybrid_query req.query (env.embed req.query)
               req.top_k weights.1 weights.2) req.sort_by)
           .ok { query := req.query, processed_query := reported,
                 total_results := response.total,
                 results := format_hits response.hits }
         | .rrf =>
           let bm25_response := env.client
             (apply_sort (build_bm25_query req.query (req.top_k * 2)) req.sort_by)
           let semantic_response := env.client
             (apply_sort (build_semantic_query (env.embed req.query) (req.top_k * 2))
               req.sort_by)
           .ok { query := req.query, processed_query := reported,
                 total_results := max bm25_response.total semantic_response.total,
                 results := reciprocal_rank_fusion bm25_response.hits
                   semantic_response.hits 60 req.top_k })) := by
  have hfall : ∀ (correction : List Char → Option (List Char)) (raw : List Char),
      (process correction raw true).1 = [] → effective_query correction raw = raw := by
    intro correction raw h
    unfold effective_query
    dsimp only
    rw [h]
    simp
  refine ⟨hfall, ?_, ?_⟩
  · intro correction
    rfl
  · intro env req hidx hempty
    have heff := hfall env.correction req.query hempty
    unfold search_articles
    rw [if_neg (by rw [hidx]; simp)]
    dsimp only
    rw [heff]

/-- Witness for C10 at a special-characters-only query. -/
theorem C10_witness :
    effective_query (fun _ => none) (("!!! ???").data) = ("!!! ???").data ∧
      search_articles const_hit_env { reqQ with query := ("!!! ???").data } =
        .ok { query := ("!!! ???").data, processed_query := none, total_results := 1,
              results := reciprocal_rank_fusion [hitA] [hitA] 60 1 } :=
  ⟨C10_empty_processed_query_fallback.1 (fun _ => none) (("!!! ???").data) (by rfl),
   by
    rw [C10_empty_processed_query_fallback.2.2 const_hit_env
      { reqQ with query := ("!!! ???").data } rfl (by decide)]
    decide⟩

end InternalSearch
